import Mathlib

/-!
# go-adodb: a shallow embedding of `adodb.go`

The driver talks to the ADO provider only through late-bound automation calls
(`oleutil.CallMethod`, `oleutil.GetProperty`, `oleutil.PutProperty`) and through
reference-count bookkeeping (`Release`, `Clear`, `CoUninitialize`).  The embedding
makes that boundary explicit:

* every automation call is answered by an *oracle* that sees the whole history of
  events so far, so the provider may answer the same call differently at different
  moments (any run of any provider is some oracle, because a history never repeats);
* every call, its reply and every release/clear is appended to a *trace*, so that
  statements such as "without calling the provider" or "the apartment is released"
  are statements about the trace;
* Go run-time faults are an explicit `panic` outcome: index out of range, a `make`
  length that is negative or too large, slice bounds, a nil safe-array pointer, and
  `Release()` on a nil handle, which dereferences it.  What the automation layer does
  with a late-bound call, also one made on a nil handle, is the oracle's answer.

`int` is taken to be 64 bits wide (GOARCH amd64, where the largest allocation is
`2^48` bytes); narrowing conversions are written with explicit wrap-around.  Floating-point and memory-reading results (`time.Date`,
`math.Float64frombits`, safe-array bytes) are kept symbolic: the decoded value
records the raw payload and which rule was applied.
-/

namespace Adodb

/-! ## Data model -/

/-- A `*ole.IDispatch` / `*ole.IUnknown` pointer; `none` is Go's `nil`. -/
abbrev Handle := Option Nat

/-- The part of `ole.VARIANT` the driver reads: the tag `VT` and the payload `Val` (an int64). -/
structure VARIANT where
  VT : Nat
  Val : Int
deriving DecidableEq

/-- An error value produced by the automation layer (`*ole.OleError`), identified by its code. -/
structure OleError where
  code : Int
deriving DecidableEq

/-- Go `error` values that the driver returns: a provider failure or the sentinel `io.EOF`. -/
inductive GoError where
  | ole (e : OleError)
  | eof
deriving DecidableEq

/-- Values of type `driver.Value` as the driver produces or receives them.
Results of floating-point, calendar and memory-reading conversions are symbolic:
the constructor names the conversion and keeps the raw operand. -/
inductive Value where
  /-- Go `nil`. -/
  | null
  /-- An `int64`. -/
  | int64 (r : Int)
  /-- Stands for `float64(math.Float32frombits(bits))`. -/
  | single (bits : Nat)
  /-- Stands for `math.Float64frombits(bits)`. -/
  | double (bits : Nat)
  /-- Stands for `float64(raw) / 10000`. -/
  | currency (raw : Int)
  /-- Stands for the `time.Date` built from `math.Modf(math.Float64frombits(bits))`. -/
  | date (bits : Nat)
  /-- A Go `string`. -/
  | str (s : String)
  /-- An `*ole.IDispatch`. -/
  | dispatch (h : Handle)
  /-- A Go `bool`. -/
  | bool (b : Bool)
  /-- An `*ole.VARIANT`. -/
  | variant (v : VARIANT)
  /-- An `*ole.IUnknown`. -/
  | unknown (h : Handle)
  /-- Stands for `float64(raw) / math.Pow(10, float64(scale))`. -/
  | scaled (raw : Int) (scale : Int)
  /-- An `int8`. -/
  | int8 (r : Int)
  /-- A `uint8`. -/
  | uint8 (r : Nat)
  /-- A `uint16`. -/
  | uint16 (r : Nat)
  /-- A `uint32`. -/
  | uint32 (r : Nat)
  /-- A `*big.Int`. -/
  | bigInt (r : Int)
  /-- Stands for the first `elems` bytes of the safe array at address `sa`. -/
  | bytes (sa : Nat) (elems : Int)
  /-- A `uintptr`. -/
  | uintptr (r : Nat)
  /-- Stands for `time.Date(1899, 12, 30+int(d), 0, 0, 0, 0, time.Local)`, `d` from `bits`. -/
  | dbDate (bits : Nat)
  /-- Stands for `time.Date(0, 1, 1, 0, 0, int(t*86400), 0, time.Local)`, `t` from `bits`. -/
  | dbTime (bits : Nat)
deriving DecidableEq

/-- How an automation member is reached: `oleutil.CallMethod`, `oleutil.GetProperty`,
`oleutil.PutProperty`, or the safe-array helper `SafeArrayConversion.TotalElements`. -/
inductive Kind where
  | method
  | get
  | put
  | safeArray
deriving DecidableEq

/-- An argument passed to an automation call. -/
inductive Arg where
  | str (s : String)
  | int (n : Int)
  | bool (b : Bool)
  | nil
  | disp (h : Handle)
  | variant (v : VARIANT)
  | value (v : Value)
deriving DecidableEq

/-- One late-bound call: kind, target object, member name, arguments. -/
structure Call where
  kind : Kind
  target : Handle
  name : String
  args : List Arg
deriving DecidableEq

/-- What a call returns: a variant, or an error. -/
inductive Reply where
  | ok (v : VARIANT)
  | fail (e : OleError)
deriving DecidableEq

/-- Everything the driver does at the automation boundary, in order. -/
inductive Event where
  /-- A late-bound call together with the reply it got. -/
  | call (c : Call) (r : Reply)
  /-- The function `IDispatch.Release` on a handle. -/
  | release (h : Handle)
  /-- The function `VARIANT.Clear` on a variant. -/
  | clear (v : VARIANT)
  /-- The function `ole.CoUninitialize`. -/
  | coUninitialize
deriving DecidableEq

abbrev Trace := List Event

/-- The automation layer, taken as a parameter: how the provider answers a call given
the history, the go-ole conversions of a variant (they read provider memory), and the
`Data` field read through a safe-array pointer. -/
structure Env where
  oracle : Trace → Call → Reply
  toIDispatch : VARIANT → Handle
  toIUnknown : VARIANT → Handle
  toStr : VARIANT → String
  saData : Nat → Nat

/-- Perform one late-bound call: ask the oracle and record call and reply. -/
def invoke (env : Env) (tr : Trace) (c : Call) : Reply × Trace :=
  (env.oracle tr c, tr ++ [Event.call c (env.oracle tr c)])

/-- A Go run-time fault. -/
inductive Fault where
  | indexOutOfRange
  | makesliceLen
  | sliceBounds
  | nilDereference
deriving DecidableEq

/-- How a Go function returning `error` ends. -/
inductive Outcome where
  /-- Returned `nil`. -/
  | ok
  /-- Returned a non-nil error. -/
  | err (e : GoError)
  /-- A run-time fault unwound the call. -/
  | panic (f : Fault)
deriving DecidableEq

/-- How a Go function returning a value ends: with the value, or with a run-time fault. -/
inductive Returned (α : Type) where
  | val (a : α)
  | panic (f : Fault)
deriving DecidableEq

/-- How one loop iteration ends: fall through to the next iteration, `return err`, or fault. -/
inductive Step where
  | cont
  | ret (e : GoError)
  | panic (f : Fault)
deriving DecidableEq

/-! ## Machine integers -/

/-- Conversion of an integer to a signed `w`-bit integer (two's complement wrap-around). -/
def toSigned (w : Nat) (v : Int) : Int :=
  (v + 2 ^ (w - 1)) % 2 ^ w - 2 ^ (w - 1)

/-- Conversion of an integer to an unsigned `w`-bit integer. -/
def toUnsigned (w : Nat) (v : Int) : Nat :=
  (v % 2 ^ w).toNat

/-- Go `int(x)` for an int64 `x` on a 64-bit target. -/
def goInt (v : Int) : Int := toSigned 64 v

/-! ## Connection -/

/-- The struct `AdodbConn`. -/
structure AdodbConn where
  db : Handle
deriving DecidableEq

/-- The method `AdodbConn.Close` (lines 122-132).  `c.db.Release()` on a nil handle
faults. -/
def AdodbConn.Close (env : Env) (c : AdodbConn) (tr : Trace) : Outcome × AdodbConn × Trace :=
  match invoke env tr ⟨Kind.method, c.db, "Close", []⟩ with
  | (Reply.fail e, tr1) => (Outcome.err (GoError.ole e), c, tr1)
  | (Reply.ok rv, tr1) =>
    match c.db with
    | none => (Outcome.panic Fault.nilDereference, c, tr1 ++ [Event.clear rv])
    | some _ =>
      (Outcome.ok, { db := none },
        tr1 ++ [Event.clear rv, Event.release c.db, Event.coUninitialize])

/-! ## Statement -/

/-- The struct `AdodbStmt`; `b = none` is a nil bind list. -/
structure AdodbStmt where
  c : Option AdodbConn
  s : Handle
  ps : Handle
  b : Option (List String)
deriving DecidableEq

/-- The struct `namedValue`. -/
structure namedValue where
  Name : String
  Ordinal : Int
  Value : Value
deriving DecidableEq

/-- The method `AdodbStmt.Bind` (lines 182-185): stores the list, always returns `nil`. -/
def AdodbStmt.Bind (s : AdodbStmt) (bind : Option (List String)) : Outcome × AdodbStmt :=
  (Outcome.ok, { s with b := bind })

/-- The method `AdodbStmt.Close` (lines 187-199).  `s.ps.Release()` and `s.s.Release()`
on a nil handle fault. -/
def AdodbStmt.Close (env : Env) (s : AdodbStmt) (tr : Trace) : Outcome × AdodbStmt × Trace :=
  match invoke env tr ⟨Kind.put, s.s, "ActiveConnection", [Arg.nil]⟩ with
  | (Reply.fail e, tr1) => (Outcome.err (GoError.ole e), s, tr1)
  | (Reply.ok rv, tr1) =>
    match s.ps with
    | none => (Outcome.panic Fault.nilDereference, s, tr1 ++ [Event.clear rv])
    | some _ =>
      match s.s with
      | none =>
        (Outcome.panic Fault.nilDereference, { s with ps := none },
          tr1 ++ [Event.clear rv, Event.release s.ps])
      | some _ =>
        (Outcome.ok, { s with ps := none, s := none, c := none },
          tr1 ++ [Event.clear rv, Event.release s.ps, Event.release s.s])

/-- The method `AdodbStmt.NumInput` (lines 201-216). -/
def AdodbStmt.NumInput (env : Env) (s : AdodbStmt) (tr : Trace) : Int × Trace :=
  match s.b with
  | some b => (b.length, tr)
  | none =>
    match invoke env tr ⟨Kind.method, s.ps, "Refresh", []⟩ with
    | (Reply.fail _, tr1) => (-1, tr1)
    | (Reply.ok rv, tr1) =>
      match invoke env (tr1 ++ [Event.clear rv]) ⟨Kind.get, s.ps, "Count", []⟩ with
      | (Reply.fail _, tr2) => (-1, tr2)
      | (Reply.ok rv2, tr2) => (goInt rv2.Val, tr2 ++ [Event.clear rv2])

/-- One iteration of the explicit-name loop of `bind` (lines 221-246), once the
parameter name `b` has been chosen.  `param.Release()` on a nil `param` faults. -/
def bindCreate (env : Env) (s : AdodbStmt) (b : String) (v : namedValue) (tr : Trace) :
    Step × Trace :=
  match invoke env tr ⟨Kind.method, s.s, "CreateParameter", [Arg.str b, Arg.int 12, Arg.int 1]⟩ with
  | (Reply.fail e, tr1) => (Step.ret (GoError.ole e), tr1)
  | (Reply.ok unknown, tr1) =>
    let param := env.toIDispatch unknown
    match invoke env (tr1 ++ [Event.clear unknown]) ⟨Kind.put, param, "Value", [Arg.value v.Value]⟩ with
    | (Reply.fail e, tr2) =>
      match param with
      | none => (Step.panic Fault.nilDereference, tr2)
      | some _ => (Step.ret (GoError.ole e), tr2 ++ [Event.release param, Event.clear unknown])
    | (Reply.ok rv, tr2) =>
      match invoke env (tr2 ++ [Event.clear rv]) ⟨Kind.method, s.ps, "Append", [Arg.disp param]⟩ with
      | (Reply.fail e, tr3) =>
        match param with
        | none => (Step.panic Fault.nilDereference, tr3)
        | some _ => (Step.ret (GoError.ole e), tr3 ++ [Event.release param, Event.clear unknown])
      | (Reply.ok rv2, tr3) =>
        match param with
        | none => (Step.panic Fault.nilDereference, tr3 ++ [Event.clear rv2])
        | some _ =>
          (Step.cont, tr3 ++ [Event.clear rv2, Event.release param, Event.release param])

/-- One iteration of the explicit-name loop of `bind` (lines 220-247) at index `i`:
the name is `"?"` unless `len(s.b) < i`, in which case `s.b[i]` is read. -/
def bindExplicitStep (env : Env) (s : AdodbStmt) (bl : List String) (i : Nat) (v : namedValue)
    (tr : Trace) : Step × Trace :=
  if bl.length < i then
    match bl[i]? with
    | none => (Step.panic Fault.indexOutOfRange, tr)
    | some b => bindCreate env s b v tr
  else bindCreate env s "?" v tr

/-- The loop `for i, v := range args` of the explicit-name branch, from index `i` on. -/
def bindExplicit (env : Env) (s : AdodbStmt) (bl : List String) :
    List namedValue → Nat → Trace → Step × Trace
  | [], _, tr => (Step.cont, tr)
  | v :: vs, i, tr =>
    match bindExplicitStep env s bl i v tr with
    | (Step.cont, tr1) => bindExplicit env s bl vs (i + 1) tr1
    | r => r

/-- One iteration of the discovery loop of `bind` (lines 249-269) at index `i`.
`item.Release()` on a nil `item` faults. -/
def bindDiscoverStep (env : Env) (s : AdodbStmt) (i : Nat) (v : namedValue) (tr : Trace) :
    Step × Trace :=
  let item : Call :=
    if v.Name ≠ "" then ⟨Kind.method, s.ps, "Item", [Arg.str v.Name]⟩
    else ⟨Kind.method, s.ps, "Item", [Arg.int (toSigned 32 i)]⟩
  match invoke env tr item with
  | (Reply.fail e, tr1) => (Step.ret (GoError.ole e), tr1)
  | (Reply.ok val, tr1) =>
    let it := env.toIDispatch val
    match invoke env (tr1 ++ [Event.clear val]) ⟨Kind.put, it, "Value", [Arg.value v.Value]⟩ with
    | (Reply.fail e, tr2) =>
      match it with
      | none => (Step.panic Fault.nilDereference, tr2)
      | some _ => (Step.ret (GoError.ole e), tr2 ++ [Event.release it])
    | (Reply.ok rv, tr2) =>
      match it with
      | none => (Step.panic Fault.nilDereference, tr2 ++ [Event.clear rv])
      | some _ => (Step.cont, tr2 ++ [Event.clear rv, Event.release it])

/-- The loop `for i, v := range args` of the discovery branch, from index `i` on. -/
def bindDiscover (env : Env) (s : AdodbStmt) : List namedValue → Nat → Trace → Step × Trace
  | [], _, tr => (Step.cont, tr)
  | v :: vs, i, tr =>
    match bindDiscoverStep env s i v tr with
    | (Step.cont, tr1) => bindDiscover env s vs (i + 1) tr1
    | r => r

/-- Turn the way a loop ended into the way the enclosing function ends when nothing follows. -/
def Step.toOutcome : Step → Outcome
  | Step.cont => Outcome.ok
  | Step.ret e => Outcome.err e
  | Step.panic f => Outcome.panic f

/-- The method `AdodbStmt.bind` (lines 218-272). -/
def AdodbStmt.bind (env : Env) (s : AdodbStmt) (args : List namedValue) (tr : Trace) :
    Outcome × Trace :=
  match s.b with
  | some bl => ((bindExplicit env s bl args 0 tr).1.toOutcome, (bindExplicit env s bl args 0 tr).2)
  | none => ((bindDiscover env s args 0 tr).1.toOutcome, (bindDiscover env s args 0 tr).2)

/-- The result `driver.ResultNoRows`, the only result `exec` produces. -/
inductive Result where
  | noRows
deriving DecidableEq

/-- The struct `AdodbRows`; a nil `cols` is the empty list. -/
structure AdodbRows where
  s : Option AdodbStmt
  rc : Handle
  nc : Int
  cols : List String
deriving DecidableEq

/-- The method `AdodbStmt.query` (lines 291-300). -/
def AdodbStmt.query (env : Env) (s : AdodbStmt) (args : List namedValue) (tr : Trace) :
    Outcome × Option AdodbRows × Trace :=
  match AdodbStmt.bind env s args tr with
  | (Outcome.ok, tr1) =>
    match invoke env tr1 ⟨Kind.method, s.s, "Execute", []⟩ with
    | (Reply.fail e, tr2) => (Outcome.err (GoError.ole e), none, tr2)
    | (Reply.ok rc, tr2) => (Outcome.ok, some ⟨some s, env.toIDispatch rc, -1, []⟩, tr2)
  | (o, tr1) => (o, none, tr1)

/-- The method `AdodbStmt.exec` (lines 313-322). -/
def AdodbStmt.exec (env : Env) (s : AdodbStmt) (args : List namedValue) (tr : Trace) :
    Outcome × Option Result × Trace :=
  match AdodbStmt.bind env s args tr with
  | (Outcome.ok, tr1) =>
    match invoke env tr1 ⟨Kind.method, s.s, "Execute", []⟩ with
    | (Reply.fail e, tr2) => (Outcome.err (GoError.ole e), none, tr2)
    | (Reply.ok _, tr2) => (Outcome.ok, some Result.noRows, tr2)
  | (o, tr1) => (o, none, tr1)

/-- The argument list built by `Query` and `Exec`: `namedValue{Ordinal: i + 1, Value: v}`. -/
def namedList (args : List Value) : List namedValue :=
  args.enum.map fun p => ⟨"", (p.1 : Int) + 1, p.2⟩

/-- The method `AdodbStmt.Query` (lines 280-289). -/
def AdodbStmt.Query (env : Env) (s : AdodbStmt) (args : List Value) (tr : Trace) :
    Outcome × Option AdodbRows × Trace :=
  AdodbStmt.query env s (namedList args) tr

/-- The method `AdodbStmt.Exec` (lines 302-311). -/
def AdodbStmt.Exec (env : Env) (s : AdodbStmt) (args : List Value) (tr : Trace) :
    Outcome × Option Result × Trace :=
  AdodbStmt.exec env s (namedList args) tr

/-! ## Row cursor -/

/-- The call `oleutil.CallMethod(fields, "Item", &varval)` with `varval = {VT_I4, i}`. -/
def itemCall (fields : Handle) (i : Nat) : Call :=
  ⟨Kind.method, fields, "Item", [Arg.variant ⟨3, i⟩]⟩

/-- The call `oleutil.GetProperty(obj, name)`. -/
def getCall (obj : Handle) (name : String) : Call :=
  ⟨Kind.get, obj, name, []⟩

/-- How the loop of `Columns` ends: it ran to its end, it hit `return []string{}`, or
it faulted. -/
inductive LoopEnd where
  | done
  | bail
  | panic (f : Fault)
deriving DecidableEq

/-- The loop of `Columns` (lines 359-377): `k` iterations starting at index `i`.
`item.Release()` on a nil `item` faults. -/
def columnsLoop (env : Env) (fields : Handle) :
    Nat → Nat → List String → Trace → LoopEnd × List String × Trace
  | 0, _, cols, tr => (LoopEnd.done, cols, tr)
  | k + 1, i, cols, tr =>
    match invoke env tr (itemCall fields i) with
    | (Reply.fail _, tr1) => (LoopEnd.bail, cols, tr1)
    | (Reply.ok val, tr1) =>
      let item := env.toIDispatch val
      match invoke env (tr1 ++ [Event.clear val]) (getCall item "Name") with
      | (Reply.fail _, tr2) =>
        match item with
        | none => (LoopEnd.panic Fault.nilDereference, cols, tr2)
        | some _ => (LoopEnd.bail, cols, tr2 ++ [Event.release item])
      | (Reply.ok name, tr2) =>
        match item with
        | none =>
          (LoopEnd.panic Fault.nilDereference, cols.set i (env.toStr name),
            tr2 ++ [Event.clear name])
        | some _ =>
          columnsLoop env fields k (i + 1) (cols.set i (env.toStr name))
            (tr2 ++ [Event.clear name, Event.release item])

/-- The part of `Columns` after `defer fields.Release()` (lines 352-378): read the
count, allocate the list, run the loop.  `make([]string, rc.nc)` faults for a negative
length and for one whose 16-byte elements exceed the largest allocation; within that
limit the allocation is taken to succeed. -/
def columnsFetch (env : Env) (rc : AdodbRows) (fields : Handle) (tr : Trace) :
    Returned (List String) × AdodbRows × Trace :=
  match invoke env tr (getCall fields "Count") with
  | (Reply.fail _, tr2) => (Returned.val [], rc, tr2)
  | (Reply.ok rv, tr2) =>
    let nc := goInt rv.Val
    if nc < 0 ∨ 2 ^ 48 < 16 * nc then
      (Returned.panic Fault.makesliceLen, { rc with nc := nc }, tr2 ++ [Event.clear rv])
    else
      match columnsLoop env fields nc.toNat 0 (List.replicate nc.toNat "")
          (tr2 ++ [Event.clear rv]) with
      | (LoopEnd.done, cols, tr3) => (Returned.val cols, { rc with nc := nc, cols := cols }, tr3)
      | (LoopEnd.bail, cols, tr3) => (Returned.val [], { rc with nc := nc, cols := cols }, tr3)
      | (LoopEnd.panic f, cols, tr3) =>
        (Returned.panic f, { rc with nc := nc, cols := cols }, tr3)

/-- The method `AdodbRows.Columns` (lines 343-380).  The deferred `fields.Release()`
runs when the function leaves after the `defer`; on a nil handle it faults, and the
fault replaces the result. -/
def AdodbRows.Columns (env : Env) (rc : AdodbRows) (tr : Trace) :
    Returned (List String) × AdodbRows × Trace :=
  if rc.nc ≠ rc.cols.length then
    match invoke env tr (getCall rc.rc "Fields") with
    | (Reply.fail _, tr1) => (Returned.val [], rc, tr1)
    | (Reply.ok unknown, tr1) =>
      match columnsFetch env rc (env.toIDispatch unknown) (tr1 ++ [Event.clear unknown]) with
      | (r, rc1, t) =>
        match env.toIDispatch unknown with
        | none => (Returned.panic Fault.nilDereference, rc1, t)
        | some _ => (r, rc1, t ++ [Event.release (env.toIDispatch unknown)])
  else (Returned.val rc.cols, rc, tr)

/-- Go `uintptr(x)` read as a pointer: zero is `nil`. -/
def toPtr (v : Int) : Handle :=
  if toUnsigned 64 v = 0 then none else some (toUnsigned 64 v)

/-- The branches `case 128` and `case 205` of the switch in `Next` (lines 482-488, 522-528):
ask for the element count, then slice the array's data. -/
def decodeBinary (env : Env) (val : VARIANT) (prior : Value) (tr : Trace) :
    Step × Value × Trace :=
  match invoke env tr ⟨Kind.safeArray, toPtr val.Val, "TotalElements", [Arg.int 0]⟩ with
  | (Reply.fail e, tr1) => (Step.ret (GoError.ole e), prior, tr1)
  | (Reply.ok elems, tr1) =>
    match toPtr val.Val with
    | none => (Step.panic Fault.nilDereference, prior, tr1)
    | some sa =>
      if env.saData sa = 0 then (Step.panic Fault.nilDereference, prior, tr1)
      else if elems.Val < 0 ∨ 2 ^ 30 < elems.Val then (Step.panic Fault.sliceBounds, prior, tr1)
      else (Step.cont, Value.bytes (env.saData sa) elems.Val, tr1)

/-- The `switch typ.Val` of `Next` (lines 434-529): the new content of the slot, given
its prior content.  A type code without a branch, or with an empty branch, leaves the
slot as it was. -/
def decode (env : Env) (typ sc val : VARIANT) (prior : Value) (tr : Trace) :
    Step × Value × Trace :=
  if typ.Val = 0 then (Step.cont, Value.null, tr)
  else if typ.Val = 2 then (Step.cont, Value.int64 (toSigned 64 (toSigned 16 val.Val)), tr)
  else if typ.Val = 3 then (Step.cont, Value.int64 (toSigned 64 (toSigned 32 val.Val)), tr)
  else if typ.Val = 4 then (Step.cont, Value.single (toUnsigned 32 val.Val), tr)
  else if typ.Val = 5 then (Step.cont, Value.double (toUnsigned 64 val.Val), tr)
  else if typ.Val = 6 then (Step.cont, Value.currency val.Val, tr)
  else if typ.Val = 7 then (Step.cont, Value.date (toUnsigned 64 val.Val), tr)
  else if typ.Val = 8 then (Step.cont, Value.str (env.toStr val), tr)
  else if typ.Val = 9 then (Step.cont, Value.dispatch (env.toIDispatch val), tr)
  else if typ.Val = 10 then (Step.cont, prior, tr)
  else if typ.Val = 11 then (Step.cont, Value.bool (decide (val.Val ≠ 0)), tr)
  else if typ.Val = 12 then (Step.cont, Value.variant val, tr)
  else if typ.Val = 13 then (Step.cont, Value.unknown (env.toIUnknown val), tr)
  else if typ.Val = 14 then (Step.cont, Value.scaled val.Val sc.Val, tr)
  else if typ.Val = 16 then (Step.cont, Value.int8 (toSigned 8 val.Val), tr)
  else if typ.Val = 17 then (Step.cont, Value.uint8 (toUnsigned 8 val.Val), tr)
  else if typ.Val = 18 then (Step.cont, Value.uint16 (toUnsigned 16 val.Val), tr)
  else if typ.Val = 19 then (Step.cont, Value.uint32 (toUnsigned 32 val.Val), tr)
  else if typ.Val = 20 then (Step.cont, Value.bigInt val.Val, tr)
  else if typ.Val = 21 then (Step.cont, prior, tr)
  else if typ.Val = 72 then (Step.cont, Value.str (env.toStr val), tr)
  else if typ.Val = 128 then decodeBinary env val prior tr
  else if typ.Val = 129 then (Step.cont, Value.str (env.toStr val), tr)
  else if typ.Val = 130 then (Step.cont, Value.str (env.toStr val), tr)
  else if typ.Val = 131 then (Step.cont, Value.scaled val.Val sc.Val, tr)
  else if typ.Val = 132 then (Step.cont, Value.uintptr (toUnsigned 64 val.Val), tr)
  else if typ.Val = 133 then (Step.cont, Value.dbDate (toUnsigned 64 val.Val), tr)
  else if typ.Val = 134 then (Step.cont, Value.dbTime (toUnsigned 64 val.Val), tr)
  else if typ.Val = 135 then (Step.cont, Value.date (toUnsigned 64 val.Val), tr)
  else if typ.Val = 136 then (Step.cont, Value.str (env.toStr val), tr)
  else if typ.Val = 200 then (Step.cont, Value.str (env.toStr val), tr)
  else if typ.Val = 201 then (Step.cont, Value.str (env.toStr val), tr)
  else if typ.Val = 202 then (Step.cont, Value.str (env.toStr val), tr)
  else if typ.Val = 203 then (Step.cont, Value.str (env.toStr val), tr)
  else if typ.Val = 204 then (Step.cont, prior, tr)
  else if typ.Val = 205 then decodeBinary env val prior tr
  else (Step.cont, prior, tr)

/-- The body of the loop `for i := range dest` of `Next` (lines 401-533) for slot `i`.
`field.Release()` on a nil `field` faults. -/
def nextField (env : Env) (fields : Handle) (i : Nat) (dest : List Value) (tr : Trace) :
    Step × List Value × Trace :=
  match invoke env tr (itemCall fields i) with
  | (Reply.fail e, tr1) => (Step.ret (GoError.ole e), dest, tr1)
  | (Reply.ok rv, tr1) =>
    let field := env.toIDispatch rv
    match invoke env (tr1 ++ [Event.clear rv]) (getCall field "Value") with
    | (Reply.fail e, tr2) =>
      match field with
      | none => (Step.panic Fault.nilDereference, dest, tr2)
      | some _ => (Step.ret (GoError.ole e), dest, tr2 ++ [Event.release field])
    | (Reply.ok val, tr2) =>
      if val.VT = 1 then
        match field with
        | none => (Step.panic Fault.nilDereference, dest.set i Value.null, tr2 ++ [Event.clear val])
        | some _ =>
          (Step.cont, dest.set i Value.null, tr2 ++ [Event.clear val, Event.release field])
      else
        match invoke env tr2 (getCall field "Type") with
        | (Reply.fail e, tr3) =>
          match field with
          | none => (Step.panic Fault.nilDereference, dest, tr3 ++ [Event.clear val])
          | some _ =>
            (Step.ret (GoError.ole e), dest, tr3 ++ [Event.clear val, Event.release field])
        | (Reply.ok typ, tr3) =>
          match invoke env tr3 (getCall field "NumericScale") with
          | (Reply.fail e, tr4) =>
            match field with
            | none =>
              (Step.panic Fault.nilDereference, dest, tr4 ++ [Event.clear typ, Event.clear val])
            | some _ =>
              (Step.ret (GoError.ole e), dest,
                tr4 ++ [Event.clear typ, Event.clear val, Event.release field])
          | (Reply.ok sc, tr4) =>
            match decode env typ sc val (dest.getD i Value.null) tr4 with
            | (Step.cont, v, tr5) =>
              match field with
              | none =>
                (Step.panic Fault.nilDereference, dest.set i v,
                  tr5 ++ [Event.clear typ, Event.clear sc, Event.clear val])
              | some _ =>
                (Step.cont, dest.set i v,
                  tr5 ++ [Event.clear typ, Event.clear sc, Event.clear val, Event.release field])
            | (st, _, tr5) => (st, dest, tr5)

/-- The loop `for i := range dest` of `Next`: `k` iterations starting at slot `i`. -/
def nextLoop (env : Env) (fields : Handle) :
    Nat → Nat → List Value → Trace → Step × List Value × Trace
  | 0, _, dest, tr => (Step.cont, dest, tr)
  | k + 1, i, dest, tr =>
    match nextField env fields i dest tr with
    | (Step.cont, d, t) => nextLoop env fields k (i + 1) d t
    | r => r

/-- The start of `Next` (lines 383-399): read the end-of-data flag and the field
collection.  Either `Next` returns at once, or the loop starts with the field
collection handle and the trace so far. -/
def nextPrelude (env : Env) (rc : AdodbRows) (tr : Trace) : (Outcome × Trace) ⊕ (Handle × Trace) :=
  match invoke env tr (getCall rc.rc "EOF") with
  | (Reply.fail _, tr1) => Sum.inl (Outcome.err GoError.eof, tr1)
  | (Reply.ok eof, tr1) =>
    if eof.Val ≠ 0 then Sum.inl (Outcome.err GoError.eof, tr1 ++ [Event.clear eof])
    else
      match invoke env (tr1 ++ [Event.clear eof]) (getCall rc.rc "Fields") with
      | (Reply.fail e, tr2) => Sum.inl (Outcome.err (GoError.ole e), tr2)
      | (Reply.ok unknown, tr2) => Sum.inr (env.toIDispatch unknown, tr2 ++ [Event.clear unknown])

/-- The part of `Next` after `defer fields.Release()` (lines 400-540): the loop over
the slots, then `MoveNext`. -/
def nextFetch (env : Env) (rc : AdodbRows) (fields : Handle) (dest : List Value) (tr : Trace) :
    Outcome × List Value × Trace :=
  match nextLoop env fields dest.length 0 dest tr with
  | (Step.cont, d, t) =>
    match invoke env t ⟨Kind.method, rc.rc, "MoveNext", []⟩ with
    | (Reply.fail e, t1) => (Outcome.err (GoError.ole e), d, t1)
    | (Reply.ok rv, t1) => (Outcome.ok, d, t1 ++ [Event.clear rv])
  | (Step.ret e, d, t) => (Outcome.err e, d, t)
  | (Step.panic f, d, t) => (Outcome.panic f, d, t)

/-- The method `AdodbRows.Next` (lines 382-541).  The deferred `fields.Release()` runs
when the function leaves after the `defer`; on a nil handle it faults, and the fault
replaces the result.  The returned list is `dest` as the caller sees it afterwards. -/
def AdodbRows.Next (env : Env) (rc : AdodbRows) (dest : List Value) (tr : Trace) :
    Outcome × List Value × Trace :=
  match nextPrelude env rc tr with
  | Sum.inl (o, tr1) => (o, dest, tr1)
  | Sum.inr (fields, tr1) =>
    match nextFetch env rc fields dest tr1 with
    | (o, d, t) =>
      match fields with
      | none => (Outcome.panic Fault.nilDereference, d, t)
      | some _ => (o, d, t ++ [Event.release fields])

/-- The moment `Next` arrives at slot `i`: the field collection handle, the content of
`dest` and the trace at that moment; `none` when `Next` has left before. -/
def slotEntry (env : Env) (rc : AdodbRows) (dest : List Value) (tr : Trace) (i : Nat) :
    Option (Handle × List Value × Trace) :=
  match nextPrelude env rc tr with
  | Sum.inl _ => none
  | Sum.inr (fields, tr1) =>
    match nextLoop env fields i 0 dest tr1 with
    | (Step.cont, d, t) => some (fields, d, t)
    | _ => none

/-! ## Concrete providers used as inputs -/

/-- A provider that accepts every call and hands out a fresh object each time. -/
def envOk : Env where
  oracle := fun tr _ => Reply.ok ⟨9, tr.length + 1⟩
  toIDispatch := fun v => some v.Val.toNat
  toIUnknown := fun v => some v.Val.toNat
  toStr := fun _ => ""
  saData := fun _ => 0

/-- A provider that rejects every call with the same error. -/
def envFail : Env where
  oracle := fun _ _ => Reply.fail ⟨-2147467259⟩
  toIDispatch := fun v => some v.Val.toNat
  toIUnknown := fun v => some v.Val.toNat
  toStr := fun _ => ""
  saData := fun _ => 0

/-- A prepared statement with the bind list `["a"]`. -/
def stmtA : AdodbStmt := ⟨some ⟨some 1⟩, some 2, some 3, some ["a"]⟩

/-- A prepared statement with a non-nil, empty bind list. -/
def stmtEmpty : AdodbStmt := ⟨some ⟨some 1⟩, some 2, some 3, some []⟩

/-- A prepared statement without a bind list. -/
def stmtNil : AdodbStmt := ⟨some ⟨some 1⟩, some 2, some 3, none⟩

/-- The names passed to `CreateParameter`, in call order. -/
def createdNames (tr : Trace) : List String :=
  tr.filterMap fun ev =>
    match ev with
    | Event.call c _ =>
      if c.name = "CreateParameter" then
        match c.args with
        | Arg.str b :: _ => some b
        | _ => none
      else none
    | _ => none

/-- Every call is accepted by the provider. -/
def AllOk (env : Env) : Prop := ∀ t c, ∃ v, env.oracle t c = Reply.ok v

/-- Every reply converts to a non-nil object handle. -/
def HandsOutObjects (env : Env) : Prop := ∀ v, env.toIDispatch v ≠ none

/-- A cursor as `query` creates it: no column read yet. -/
def rowsFresh : AdodbRows := ⟨none, some 7, -1, []⟩

/-- A provider whose field collection first has the one column `a` and, once ten events
have happened, the two columns `a`, `b`.  Field `i` is the object `10 + i`; its name is
the string `100 + i`. -/
def envCols : Env where
  oracle := fun tr c =>
    if c.name = "Count" then Reply.ok ⟨3, if tr.length < 10 then 1 else 2⟩
    else if c.name = "Item" then
      match c.args with
      | [Arg.variant v] => Reply.ok ⟨9, 10 + v.Val⟩
      | _ => Reply.fail ⟨-2147352565⟩
    else if c.name = "Name" then
      match c.target with
      | some h => Reply.ok ⟨8, 90 + h⟩
      | none => Reply.fail ⟨-2147467261⟩
    else Reply.ok ⟨9, 8⟩
  toIDispatch := fun v => some v.Val.toNat
  toIUnknown := fun v => some v.Val.toNat
  toStr := fun v => if v.Val = 100 then "a" else if v.Val = 101 then "b" else ""
  saData := fun _ => 0

/-- A provider positioned on a row whose fields are objects but whose every `Value` read
is rejected. -/
def envValueFail : Env where
  oracle := fun _ c =>
    if c.name = "EOF" then Reply.ok ⟨11, 0⟩
    else if c.name = "Item" then
      match c.args with
      | [Arg.variant v] => Reply.ok ⟨9, 10 + v.Val⟩
      | _ => Reply.fail ⟨-2147352565⟩
    else if c.name = "Value" then Reply.fail ⟨-2146825267⟩
    else Reply.ok ⟨9, 8⟩
  toIDispatch := fun v => some v.Val.toNat
  toIUnknown := fun v => some v.Val.toNat
  toStr := fun _ => ""
  saData := fun _ => 0

/-- The trace once `Next`, arriving at slot `i` with trace `t`, has fetched the field
object `rv` and cleared the reply. -/
def afterItem (fields : Handle) (i : Nat) (t : Trace) (rv : VARIANT) : Trace :=
  t ++ [Event.call (itemCall fields i) (Reply.ok rv), Event.clear rv]

/-- The trace once the field's `Value` has been read as `val`. -/
def afterValue (env : Env) (fields : Handle) (i : Nat) (t : Trace) (rv val : VARIANT) : Trace :=
  afterItem fields i t rv ++ [Event.call (getCall (env.toIDispatch rv) "Value") (Reply.ok val)]

/-- The trace once the field's `Type` has been read as `typ`. -/
def afterType (env : Env) (fields : Handle) (i : Nat) (t : Trace) (rv val typ : VARIANT) :
    Trace :=
  afterValue env fields i t rv val ++
    [Event.call (getCall (env.toIDispatch rv) "Type") (Reply.ok typ)]

/-- The trace once the field's `NumericScale` has been read as `sc`. -/
def afterScale (env : Env) (fields : Handle) (i : Nat) (t : Trace) (rv val typ sc : VARIANT) :
    Trace :=
  afterType env fields i t rv val typ ++
    [Event.call (getCall (env.toIDispatch rv) "NumericScale") (Reply.ok sc)]

/-- Arriving at slot `i` with trace `t`, the provider hands out the field object `rv`
and then reports `val` as its `Value`. -/
def ReadsValue (env : Env) (fields : Handle) (i : Nat) (t : Trace) (rv val : VARIANT) : Prop :=
  env.oracle t (itemCall fields i) = Reply.ok rv ∧
  env.oracle (afterItem fields i t rv) (getCall (env.toIDispatch rv) "Value") = Reply.ok val

instance (env : Env) (fields : Handle) (i : Nat) (t : Trace) (rv val : VARIANT) :
    Decidable (ReadsValue env fields i t rv val) := by
  unfold ReadsValue
  infer_instance

/-- After the value `val`, the provider reports `typ` as the field's `Type` and then
`sc` as its `NumericScale`. -/
def ReadsMeta (env : Env) (fields : Handle) (i : Nat) (t : Trace) (rv val typ sc : VARIANT) :
    Prop :=
  env.oracle (afterValue env fields i t rv val) (getCall (env.toIDispatch rv) "Type") =
    Reply.ok typ ∧
  env.oracle (afterType env fields i t rv val typ) (getCall (env.toIDispatch rv) "NumericScale") =
    Reply.ok sc

instance (env : Env) (fields : Handle) (i : Nat) (t : Trace) (rv val typ sc : VARIANT) :
    Decidable (ReadsMeta env fields i t rv val typ sc) := by
  unfold ReadsMeta
  infer_instance

/-- A provider positioned on a row of three fields (objects 10, 11, 12): field 0 is NULL
although typed integer(3), field 1 is a small-int(2) with payload 0xFFFF, field 2 has
the unimplemented type error(10). -/
def envRow : Env where
  oracle := fun _ c =>
    if c.name = "EOF" then Reply.ok ⟨11, 0⟩
    else if c.name = "Item" then
      match c.args with
      | [Arg.variant v] => Reply.ok ⟨9, 10 + v.Val⟩
      | _ => Reply.fail ⟨-2147352565⟩
    else if c.name = "Value" then
      if c.target = some 10 then Reply.ok ⟨1, 0⟩
      else if c.target = some 11 then Reply.ok ⟨2, 65535⟩
      else Reply.ok ⟨10, 5⟩
    else if c.name = "Type" then
      if c.target = some 10 then Reply.ok ⟨3, 3⟩
      else if c.target = some 11 then Reply.ok ⟨3, 2⟩
      else Reply.ok ⟨3, 10⟩
    else if c.name = "NumericScale" then Reply.ok ⟨17, 0⟩
    else Reply.ok ⟨9, 8⟩
  toIDispatch := fun v => some v.Val.toNat
  toIUnknown := fun v => some v.Val.toNat
  toStr := fun _ => ""
  saData := fun _ => 0

/-- A destination slice whose three slots still hold the value 7 of an earlier row. -/
def rowDest : List Value := [Value.int64 7, Value.int64 7, Value.int64 7]

/-- The trace with which `Next envRow rowsFresh rowDest []` arrives at slot `i`. -/
def rowTraceAt (i : Nat) : Trace :=
  match slotEntry envRow rowsFresh rowDest [] i with
  | some (_, _, t) => t
  | none => []

/-- Among the events is a `Fields` or `Item` call whose reply converts to a nil handle. -/
def NilObject (env : Env) (evs : List Event) : Prop :=
  ∃ c v, Event.call c (Reply.ok v) ∈ evs ∧ (c.name = "Fields" ∨ c.name = "Item") ∧
    env.toIDispatch v = none

/-- A piece of `Next` that started with trace `tr` only added events to it; if a provider
call failed meanwhile it ended with that error, or else with the fault of releasing a
nil handle obtained meanwhile; and it did not end with `io.EOF`. -/
def Surfaced (env : Env) (tr : Trace) (r : Outcome × Trace) : Prop :=
  ∃ evs, r.2 = tr ++ evs ∧
    (∀ c e, Event.call c (Reply.fail e) ∈ evs →
      r.1 = Outcome.err (GoError.ole e) ∨
        (r.1 = Outcome.panic Fault.nilDereference ∧ NilObject env evs)) ∧
    r.1 ≠ Outcome.err GoError.eof

/-- No event of the list is a failed call. -/
def Quiet (evs : List Event) : Prop := ∀ c e, Event.call c (Reply.fail e) ∉ evs

/-! ## Machine-integer facts -/

theorem toSigned_64_of_range (k : Int) (h1 : -2 ^ 63 ≤ k) (h2 : k < 2 ^ 63) : toSigned 64 k = k := by
  unfold toSigned
  norm_num at h1 h2 ⊢
  omega

theorem toSigned_16_range (v : Int) :
    -2 ^ 15 ≤ toSigned 16 v ∧ toSigned 16 v < 2 ^ 15 ∧ toSigned 16 v % 2 ^ 16 = v % 2 ^ 16 := by
  unfold toSigned
  norm_num
  omega

theorem toSigned_32_range (v : Int) :
    -2 ^ 31 ≤ toSigned 32 v ∧ toSigned 32 v < 2 ^ 31 ∧ toSigned 32 v % 2 ^ 32 = v % 2 ^ 32 := by
  unfold toSigned
  norm_num
  omega

/-! ## Connection close -/

/-- C7 (counterexample): when the provider rejects `Close`, `AdodbConn.Close` returns the
error, and its trace holds the rejected call only: `CoUninitialize` is not called. -/
theorem Conn_Close_failure_keeps_apartment :
    AdodbConn.Close envFail ⟨some 1⟩ [] =
      (Outcome.err (GoError.ole ⟨-2147467259⟩), ⟨some 1⟩,
        [Event.call ⟨Kind.method, some 1, "Close", []⟩ (Reply.fail ⟨-2147467259⟩)]) ∧
    Event.coUninitialize ∉ (AdodbConn.Close envFail ⟨some 1⟩ []).2.2 := by
  decide

/-- C7 (amended): if the provider's `Close` call fails, `AdodbConn.Close` returns that error
and does nothing else (the handle is kept, nothing is released, `CoUninitialize` is not
called); if it succeeds on a connection whose handle is not nil, the reply is cleared,
the connection reference is released, the handle becomes nil and `CoUninitialize` is
called, in this order. -/
theorem Conn_Close_teardown (env : Env) (c : AdodbConn) (tr : Trace) :
    (∀ e, env.oracle tr ⟨Kind.method, c.db, "Close", []⟩ = Reply.fail e →
      AdodbConn.Close env c tr =
        (Outcome.err (GoError.ole e), c,
          tr ++ [Event.call ⟨Kind.method, c.db, "Close", []⟩ (Reply.fail e)]) ∧
      Event.coUninitialize ∉ [Event.call ⟨Kind.method, c.db, "Close", []⟩ (Reply.fail e)]) ∧
    (∀ rv h, c.db = some h →
      env.oracle tr ⟨Kind.method, c.db, "Close", []⟩ = Reply.ok rv →
      AdodbConn.Close env c tr =
        (Outcome.ok, ⟨none⟩,
          tr ++ [Event.call ⟨Kind.method, c.db, "Close", []⟩ (Reply.ok rv), Event.clear rv,
            Event.release (some h), Event.coUninitialize])) := by
  constructor
  · intro e h
    refine ⟨?_, by simp⟩
    simp [AdodbConn.Close, invoke, h]
  · intro rv h hdb hok
    obtain ⟨db⟩ := c
    simp only at hdb
    subst hdb
    simp only at hok
    simp [AdodbConn.Close, invoke, hok]

theorem Conn_Close_teardown_witness :
    AdodbConn.Close envOk ⟨some 1⟩ [] =
      (Outcome.ok, ⟨none⟩,
        [] ++ [Event.call ⟨Kind.method, some 1, "Close", []⟩ (Reply.ok ⟨9, 1⟩), Event.clear ⟨9, 1⟩,
          Event.release (some 1), Event.coUninitialize]) :=
  (Conn_Close_teardown envOk ⟨some 1⟩ []).2 ⟨9, 1⟩ 1 rfl (by decide)

/-- On a connection whose handle is already nil (after a first `Close`), a provider that
accepts the call makes `AdodbConn.Close` fault at `c.db.Release()`. -/
theorem Conn_Close_nil_handle_faults (env : Env) (tr : Trace) (rv : VARIANT)
    (hok : env.oracle tr ⟨Kind.method, none, "Close", []⟩ = Reply.ok rv) :
    (AdodbConn.Close env ⟨none⟩ tr).1 = Outcome.panic Fault.nilDereference := by
  simp [AdodbConn.Close, invoke, hok]

/-! ## NumInput -/

/-- C9: with a bind list of length N, `NumInput` returns N and makes no provider call;
without one it calls `Refresh`, then reads `Count`, and returns the reported count K
(an int64), or -1 when the `Refresh` call or the `Count` read fails. -/
theorem NumInput_reference (env : Env) (s : AdodbStmt) (tr : Trace) :
    (∀ bl, s.b = some bl → AdodbStmt.NumInput env s tr = ((bl.length : Int), tr)) ∧
    (s.b = none →
      (∀ e, env.oracle tr ⟨Kind.method, s.ps, "Refresh", []⟩ = Reply.fail e →
        AdodbStmt.NumInput env s tr =
          (-1, tr ++ [Event.call ⟨Kind.method, s.ps, "Refresh", []⟩ (Reply.fail e)])) ∧
      (∀ rv, env.oracle tr ⟨Kind.method, s.ps, "Refresh", []⟩ = Reply.ok rv →
        (∀ e, env.oracle
            (tr ++ [Event.call ⟨Kind.method, s.ps, "Refresh", []⟩ (Reply.ok rv), Event.clear rv])
            ⟨Kind.get, s.ps, "Count", []⟩ = Reply.fail e →
          AdodbStmt.NumInput env s tr =
            (-1, tr ++ [Event.call ⟨Kind.method, s.ps, "Refresh", []⟩ (Reply.ok rv), Event.clear rv,
              Event.call ⟨Kind.get, s.ps, "Count", []⟩ (Reply.fail e)])) ∧
        (∀ k, env.oracle
            (tr ++ [Event.call ⟨Kind.method, s.ps, "Refresh", []⟩ (Reply.ok rv), Event.clear rv])
            ⟨Kind.get, s.ps, "Count", []⟩ = Reply.ok k →
          -2 ^ 63 ≤ k.Val → k.Val < 2 ^ 63 →
          AdodbStmt.NumInput env s tr =
            (k.Val, tr ++ [Event.call ⟨Kind.method, s.ps, "Refresh", []⟩ (Reply.ok rv),
              Event.clear rv, Event.call ⟨Kind.get, s.ps, "Count", []⟩ (Reply.ok k),
              Event.clear k])))) := by
  refine ⟨?_, ?_⟩
  · intro bl h
    simp [AdodbStmt.NumInput, h]
  · intro hb
    refine ⟨?_, ?_⟩
    · intro e h
      simp [AdodbStmt.NumInput, hb, invoke, h]
    · intro rv h
      refine ⟨?_, ?_⟩
      · intro e h2
        simp [AdodbStmt.NumInput, hb, invoke, h, h2]
      · intro k h2 hlo hhi
        simp [AdodbStmt.NumInput, hb, invoke, h, h2, goInt, toSigned_64_of_range k.Val hlo hhi]

theorem NumInput_reference_witness :
    AdodbStmt.NumInput envFail stmtA [] = (((["a"].length : Nat) : Int), []) ∧
    AdodbStmt.NumInput envOk stmtNil [] =
      (3, [] ++ [Event.call ⟨Kind.method, some 3, "Refresh", []⟩ (Reply.ok ⟨9, 1⟩),
        Event.clear ⟨9, 1⟩, Event.call ⟨Kind.get, some 3, "Count", []⟩ (Reply.ok ⟨9, 3⟩),
        Event.clear ⟨9, 3⟩]) :=
  ⟨(NumInput_reference envFail stmtA []).1 ["a"] rfl,
   ((NumInput_reference envOk stmtNil []).2 rfl).2 ⟨9, 1⟩ (by decide) |>.2 ⟨9, 3⟩ (by decide)
     (by decide) (by decide)⟩


/-! ## Parameter binding -/

theorem bindCreate_of_allOk (env : Env) (h : AllOk env) (hobj : HandsOutObjects env)
    (s : AdodbStmt) (b : String) (v : namedValue) (tr : Trace) :
    (bindCreate env s b v tr).1 = Step.cont := by
  unfold bindCreate invoke
  obtain ⟨u, hu⟩ := h tr ⟨Kind.method, s.s, "CreateParameter", [Arg.str b, Arg.int 12, Arg.int 1]⟩
  simp only [hu]
  obtain ⟨p, hp⟩ := Option.ne_none_iff_exists'.mp (hobj u)
  obtain ⟨r, hr⟩ := h (tr ++ [Event.call
      ⟨Kind.method, s.s, "CreateParameter", [Arg.str b, Arg.int 12, Arg.int 1]⟩ (Reply.ok u)] ++
      [Event.clear u]) ⟨Kind.put, env.toIDispatch u, "Value", [Arg.value v.Value]⟩
  simp only [hr]
  obtain ⟨r2, hr2⟩ := h (tr ++ [Event.call
      ⟨Kind.method, s.s, "CreateParameter", [Arg.str b, Arg.int 12, Arg.int 1]⟩ (Reply.ok u)] ++
      [Event.clear u] ++
      [Event.call ⟨Kind.put, env.toIDispatch u, "Value", [Arg.value v.Value]⟩ (Reply.ok r)] ++
      [Event.clear r]) ⟨Kind.method, s.ps, "Append", [Arg.disp (env.toIDispatch u)]⟩
  simp only [hr2]
  rw [hp]

theorem bindExplicit_of_allOk (env : Env) (h : AllOk env) (hobj : HandsOutObjects env)
    (s : AdodbStmt) (bl : List String) :
    ∀ (args : List namedValue) (i : Nat) (tr : Trace), i + args.length ≤ bl.length + 1 →
      (bindExplicit env s bl args i tr).1 = Step.cont := by
  intro args
  induction args with
  | nil => intro i tr _; rfl
  | cons v vs ih =>
    intro i tr hlen
    simp only [List.length_cons] at hlen
    have hi : ¬ bl.length < i := by omega
    have hstep : bindExplicitStep env s bl i v tr = bindCreate env s "?" v tr := by
      simp [bindExplicitStep, hi]
    have hc := bindCreate_of_allOk env h hobj s "?" v tr
    unfold bindExplicit
    rw [hstep]
    rcases hres : bindCreate env s "?" v tr with ⟨st, t1⟩
    rw [hres] at hc
    simp only at hc
    subst hc
    exact ih (i + 1) t1 (by omega)

theorem createdNames_append (t1 t2 : Trace) :
    createdNames (t1 ++ t2) = createdNames t1 ++ createdNames t2 := by
  simp [createdNames, List.filterMap_append]

theorem createdNames_quiet (tr q : Trace)
    (hq : ∀ c r, Event.call c r ∈ q → c.name ≠ "CreateParameter") :
    createdNames (tr ++ q) = createdNames tr := by
  rw [createdNames_append]
  have : createdNames q = [] := by
    unfold createdNames
    rw [List.filterMap_eq_nil_iff]
    intro ev hev
    cases ev with
    | call c r => simp [hq c r hev]
    | release h => rfl
    | clear v => rfl
    | coUninitialize => rfl
  rw [this, List.append_nil]

theorem bindCreate_names (env : Env) (s : AdodbStmt) (b : String) (v : namedValue) (tr : Trace) :
    createdNames (bindCreate env s b v tr).2 = createdNames tr ++ [b] := by
  have hfirst : ∀ r, createdNames (tr ++ [Event.call
      ⟨Kind.method, s.s, "CreateParameter", [Arg.str b, Arg.int 12, Arg.int 1]⟩ r]) =
      createdNames tr ++ [b] := by
    intro r
    rw [createdNames_append]
    simp [createdNames]
  have hrest : ∀ (r : Reply) (q : Trace),
      (∀ c r', Event.call c r' ∈ q → c.name ≠ "CreateParameter") →
      createdNames (tr ++ [Event.call
        ⟨Kind.method, s.s, "CreateParameter", [Arg.str b, Arg.int 12, Arg.int 1]⟩ r] ++ q) =
      createdNames tr ++ [b] := by
    intro r q hq
    rw [createdNames_quiet _ _ hq]
    exact hfirst r
  unfold bindCreate invoke
  generalize env.oracle tr _ = r1
  cases r1 with
  | fail e => exact hfirst _
  | ok u =>
    simp only
    generalize env.oracle _ _ = r2
    cases r2 with
    | fail e =>
      cases env.toIDispatch u with
      | none =>
        simp only [List.append_assoc]
        rw [← List.append_assoc]
        exact hrest _ _ (by intro c r h; simp at h; rcases h with ⟨rfl, _⟩; simp)
      | some p =>
        simp only [List.append_assoc]
        rw [← List.append_assoc]
        exact hrest _ _ (by intro c r h; simp at h; rcases h with ⟨rfl, _⟩; simp)
    | ok rv =>
      simp only
      generalize env.oracle _ _ = r3
      cases r3 with
      | fail e =>
        cases env.toIDispatch u with
        | none =>
          simp only [List.append_assoc]
          rw [← List.append_assoc]
          exact hrest _ _ (by
            intro c r h
            simp at h
            rcases h with ⟨rfl, _⟩ | ⟨rfl, _⟩ <;> simp)
        | some p =>
          simp only [List.append_assoc]
          rw [← List.append_assoc]
          exact hrest _ _ (by
            intro c r h
            simp at h
            rcases h with ⟨rfl, _⟩ | ⟨rfl, _⟩ <;> simp)
      | ok rv2 =>
        cases env.toIDispatch u with
        | none =>
          simp only [List.append_assoc]
          rw [← List.append_assoc]
          exact hrest _ _ (by
            intro c r h
            simp at h
            rcases h with ⟨rfl, _⟩ | ⟨rfl, _⟩ <;> simp)
        | some p =>
          simp only [List.append_assoc]
          rw [← List.append_assoc]
          exact hrest _ _ (by
            intro c r h
            simp at h
            rcases h with ⟨rfl, _⟩ | ⟨rfl, _⟩ <;> simp)

theorem bindExplicit_names (env : Env) (s : AdodbStmt) (bl : List String) :
    ∀ (args : List namedValue) (i : Nat) (tr : Trace),
      ∃ k, k ≤ args.length ∧
        createdNames (bindExplicit env s bl args i tr).2 =
          createdNames tr ++ List.replicate k "?" ∧
        ((bindExplicit env s bl args i tr).1 = Step.cont → k = args.length) := by
  intro args
  induction args with
  | nil => intro i tr; exact ⟨0, by simp [bindExplicit]⟩
  | cons v vs ih =>
    intro i tr
    unfold bindExplicit
    by_cases hi : bl.length < i
    · have hnone : bl[i]? = none := List.getElem?_eq_none (by omega)
      have hstep : bindExplicitStep env s bl i v tr = (Step.panic Fault.indexOutOfRange, tr) := by
        simp [bindExplicitStep, hi, hnone]
      rw [hstep]
      exact ⟨0, by simp⟩
    · have hstep : bindExplicitStep env s bl i v tr = bindCreate env s "?" v tr := by
        simp [bindExplicitStep, hi]
      rw [hstep]
      have hn := bindCreate_names env s "?" v tr
      rcases hres : bindCreate env s "?" v tr with ⟨st, t1⟩
      rw [hres] at hn
      simp only at hn
      cases st with
      | cont =>
        obtain ⟨k, hk, hnames, hall⟩ := ih (i + 1) t1
        refine ⟨k + 1, by simp only [List.length_cons]; omega, ?_, ?_⟩
        · simp only
          rw [hnames, hn, List.append_assoc]
          congr 1
        · intro hc
          simp only [List.length_cons]
          simp only at hc
          rw [hall hc]
      | ret e => exact ⟨1, by simp, by simpa using hn, by simp⟩
      | panic f => exact ⟨1, by simp, by simpa using hn, by simp⟩

/-- In explicit-name mode no parameter is ever created under a name from the bind list:
every `CreateParameter` call of `bind` passes `"?"`, and when `bind` returns `nil` there
is one such call per argument. -/
theorem bind_explicit_names_all_placeholder (env : Env) (s : AdodbStmt) (bl : List String)
    (hb : s.b = some bl) (args : List namedValue) (tr : Trace) :
    ∃ k, k ≤ args.length ∧
      createdNames (AdodbStmt.bind env s args tr).2 = createdNames tr ++ List.replicate k "?" ∧
      ((AdodbStmt.bind env s args tr).1 = Outcome.ok → k = args.length) := by
  obtain ⟨k, hk, hn, hall⟩ := bindExplicit_names env s bl args 0 tr
  refine ⟨k, hk, by simpa [AdodbStmt.bind, hb] using hn, ?_⟩
  intro hok
  apply hall
  simp only [AdodbStmt.bind, hb] at hok
  cases hst : (bindExplicit env s bl args 0 tr).1 with
  | cont => rfl
  | ret e => rw [hst] at hok; simp [Step.toOutcome] at hok
  | panic f => rw [hst] at hok; simp [Step.toOutcome] at hok

theorem bindExplicit_faults (env : Env) (h : AllOk env) (hobj : HandsOutObjects env)
    (s : AdodbStmt) (bl : List String) :
    ∀ (args : List namedValue) (i : Nat) (tr : Trace),
      bl.length + 2 ≤ i + args.length → i ≤ bl.length + 1 →
      (bindExplicit env s bl args i tr).1 = Step.panic Fault.indexOutOfRange := by
  intro args
  induction args with
  | nil =>
    intro i tr h1 h2
    simp only [List.length_nil] at h1
    omega
  | cons v vs ih =>
    intro i tr h1 h2
    simp only [List.length_cons] at h1
    unfold bindExplicit
    by_cases hi : bl.length < i
    · have hnone : bl[i]? = none := List.getElem?_eq_none (by omega)
      have hstep : bindExplicitStep env s bl i v tr = (Step.panic Fault.indexOutOfRange, tr) := by
        simp [bindExplicitStep, hi, hnone]
      rw [hstep]
    · have hstep : bindExplicitStep env s bl i v tr = bindCreate env s "?" v tr := by
        simp [bindExplicitStep, hi]
      rw [hstep]
      have hc := bindCreate_of_allOk env h hobj s "?" v tr
      rcases hres : bindCreate env s "?" v tr with ⟨st, t1⟩
      rw [hres] at hc
      simp only at hc
      subst hc
      exact ih (i + 1) t1 (by omega) (by omega)

/-- In explicit-name mode, whenever the provider accepts every call and answers with
objects, and there are at least two arguments more than names, `bind` faults with an
index out of range. -/
theorem bind_explicit_faults_on_short_list (env : Env) (h : AllOk env)
    (hobj : HandsOutObjects env) (s : AdodbStmt)
    (bl : List String) (hb : s.b = some bl) (args : List namedValue) (tr : Trace)
    (hlen : bl.length + 2 ≤ args.length) :
    (AdodbStmt.bind env s args tr).1 = Outcome.panic Fault.indexOutOfRange := by
  have := bindExplicit_faults env h hobj s bl args 0 tr (by omega) (by omega)
  simp [AdodbStmt.bind, hb, this, Step.toOutcome]

/-- C1 (the code at the failing input): with the bind list `["a"]` and one argument, every
provider call succeeding, `bind` returns `nil` and the only parameter it creates is
created with the name `"?"`, not `"a"`. -/
theorem bind_single_name_is_placeholder :
    (AdodbStmt.bind envOk stmtA [⟨"", 1, Value.int64 5⟩] []).1 = Outcome.ok ∧
    createdNames (AdodbStmt.bind envOk stmtA [⟨"", 1, Value.int64 5⟩] []).2 = ["?"] := by
  decide

/-- C2 (the code at the failing input): with a non-nil empty bind list and two arguments,
every provider call succeeding, `bind` creates one parameter named `"?"` and then faults
with an index out of range while choosing the name of the second. -/
theorem bind_short_list_faults :
    (AdodbStmt.bind envOk stmtEmpty [⟨"", 1, Value.int64 5⟩, ⟨"", 2, Value.int64 6⟩] []).1 =
      Outcome.panic Fault.indexOutOfRange ∧
    createdNames
      (AdodbStmt.bind envOk stmtEmpty [⟨"", 1, Value.int64 5⟩, ⟨"", 2, Value.int64 6⟩] []).2 =
      ["?"] := by
  decide

/-! ## Statement close -/

/-- C3 (counterexample): after `Bind(["a"])` and a successful `Close()`, `NumInput()`
returns 1, a normal result, and makes no provider call. -/
theorem NumInput_after_Close_returns_length :
    (AdodbStmt.Close envOk (AdodbStmt.Bind stmtNil (some ["a"])).2 []).1 = Outcome.ok ∧
    AdodbStmt.NumInput envOk (AdodbStmt.Close envOk (AdodbStmt.Bind stmtNil (some ["a"])).2 []).2.1
        (AdodbStmt.Close envOk (AdodbStmt.Bind stmtNil (some ["a"])).2 []).2.2 =
      (1, (AdodbStmt.Close envOk (AdodbStmt.Bind stmtNil (some ["a"])).2 []).2.2) := by
  decide

/-- C3 (amended): the statement keeps no closed state.  After a successful `Close()` the
command, parameter-collection and connection references are nil and the bind list is
kept; from then on `Bind` still returns `nil` and stores its list, and `NumInput` still
returns the length of the bind list when one is set (kept from before the close or
stored after it), making no provider call. -/
theorem Stmt_ops_after_Close (env : Env) (s s' : AdodbStmt) (tr tr' : Trace)
    (h : AdodbStmt.Close env s tr = (Outcome.ok, s', tr')) :
    s'.s = none ∧ s'.ps = none ∧ s'.c = none ∧ s'.b = s.b ∧
    (∀ bind, AdodbStmt.Bind s' bind = (Outcome.ok, { s' with b := bind })) ∧
    (∀ env2 tr2 bl, s'.b = some bl → AdodbStmt.NumInput env2 s' tr2 = ((bl.length : Int), tr2)) ∧
    (∀ env2 tr2 bl,
      AdodbStmt.NumInput env2 (AdodbStmt.Bind s' (some bl)).2 tr2 = ((bl.length : Int), tr2)) := by
  have hs : s' = { s with ps := none, s := none, c := none } := by
    unfold AdodbStmt.Close invoke at h
    cases h1 : env.oracle tr ⟨Kind.put, s.s, "ActiveConnection", [Arg.nil]⟩ with
    | fail e => simp [h1] at h
    | ok rv =>
      simp only [h1] at h
      cases hps : s.ps with
      | none => simp [hps] at h
      | some p =>
        cases hss : s.s with
        | none => simp [hps, hss] at h
        | some q =>
          simp only [hps, hss, Prod.mk.injEq, true_and] at h
          rw [← h.1]
  subst hs
  refine ⟨rfl, rfl, rfl, rfl, ?_, ?_, ?_⟩
  · intro bind; rfl
  · intro env2 tr2 bl hbl
    simp only at hbl
    simp [AdodbStmt.NumInput, hbl]
  · intro env2 tr2 bl
    simp [AdodbStmt.NumInput, AdodbStmt.Bind]

theorem Stmt_ops_after_Close_witness :
    AdodbStmt.Close envOk stmtA [] =
      (Outcome.ok, ⟨none, none, none, some ["a"]⟩, (AdodbStmt.Close envOk stmtA []).2.2) ∧
    (⟨none, none, none, some ["a"]⟩ : AdodbStmt).s = none ∧
    AdodbStmt.NumInput envFail ⟨none, none, none, some ["a"]⟩ [] =
      (((["a"].length : Nat) : Int), []) :=
  ⟨by decide,
    (Stmt_ops_after_Close envOk stmtA ⟨none, none, none, some ["a"]⟩ []
      (AdodbStmt.Close envOk stmtA []).2.2 (by decide)).1,
    (Stmt_ops_after_Close envOk stmtA ⟨none, none, none, some ["a"]⟩ []
      (AdodbStmt.Close envOk stmtA []).2.2 (by decide)).2.2.2.2.2.1 envFail [] ["a"] rfl⟩

/-- On a statement that is already closed, a provider that accepts the detach call on
the nil handle makes `AdodbStmt.Close` fault at `s.ps.Release()`. -/
theorem Stmt_Close_nil_handle_faults (env : Env) (s : AdodbStmt) (tr : Trace) (rv : VARIANT)
    (hps : s.ps = none)
    (hok : env.oracle tr ⟨Kind.put, s.s, "ActiveConnection", [Arg.nil]⟩ = Reply.ok rv) :
    (AdodbStmt.Close env s tr).1 = Outcome.panic Fault.nilDereference := by
  simp [AdodbStmt.Close, invoke, hok, hps]

/-! ## Column cache -/

theorem columnsLoop_length (env : Env) (fields : Handle) :
    ∀ (k i : Nat) (cols : List String) (tr : Trace),
      (columnsLoop env fields k i cols tr).2.1.length = cols.length := by
  intro k
  induction k with
  | zero => intro i cols tr; rfl
  | succ k ih =>
    intro i cols tr
    unfold columnsLoop invoke
    cases h1 : env.oracle tr (itemCall fields i) with
    | fail e => rfl
    | ok val =>
      simp only
      cases h2 : env.oracle (tr ++ [Event.call (itemCall fields i) (Reply.ok val)] ++
          [Event.clear val]) (getCall (env.toIDispatch val) "Name") with
      | fail e =>
        cases env.toIDispatch val <;> rfl
      | ok name =>
        cases env.toIDispatch val with
        | none => simp
        | some p =>
          simp only
          rw [ih]
          simp

theorem columnsFetch_valid (env : Env) (rc rc' : AdodbRows) (fields : Handle) (tr tr' : Trace)
    (cols : List String) (h : columnsFetch env rc fields tr = (Returned.val cols, rc', tr'))
    (hne : cols ≠ []) : rc'.nc = (rc'.cols.length : Int) ∧ rc'.cols = cols := by
  unfold columnsFetch invoke at h
  cases h2 : env.oracle tr (getCall fields "Count") with
  | fail e =>
    simp only [h2, Prod.mk.injEq, Returned.val.injEq] at h
    exact absurd h.1.symm hne
  | ok rv =>
    simp only [h2] at h
    by_cases hneg : goInt rv.Val < 0 ∨ 2 ^ 48 < 16 * goInt rv.Val
    · rw [if_pos hneg] at h
      simp at h
    · rw [if_neg hneg] at h
      have hlen := columnsLoop_length env fields (goInt rv.Val).toNat 0
        (List.replicate (goInt rv.Val).toNat "")
        (tr ++ [Event.call (getCall fields "Count") (Reply.ok rv)] ++ [Event.clear rv])
      rcases hloop : columnsLoop env fields (goInt rv.Val).toNat 0
        (List.replicate (goInt rv.Val).toNat "")
        (tr ++ [Event.call (getCall fields "Count") (Reply.ok rv)] ++ [Event.clear rv])
        with ⟨flag, c3, t3⟩
      rw [hloop] at hlen h
      simp only [List.length_replicate] at hlen
      cases flag with
      | bail =>
        simp only [Prod.mk.injEq, Returned.val.injEq] at h
        exact absurd h.1.symm hne
      | panic f => simp at h
      | done =>
        simp only [Prod.mk.injEq, Returned.val.injEq] at h
        obtain ⟨h3, h4, _⟩ := h
        subst h4
        subst h3
        simp only [hlen]
        constructor
        · push_neg at hneg
          omega
        · trivial

/-- C4 (counterexample): the first `Columns()` returns `["a"]`; afterwards the provider
reports a field count of 2 (a fresh cursor would read `["a", "b"]`), yet the second
`Columns()` on the same cursor returns the cached `["a"]` and makes no provider call. -/
theorem Columns_ignores_changed_count :
    (AdodbRows.Columns envCols rowsFresh []).1 = Returned.val ["a"] ∧
    envCols.oracle (AdodbRows.Columns envCols rowsFresh []).2.2 (getCall (some 8) "Count") =
      Reply.ok ⟨3, 2⟩ ∧
    (AdodbRows.Columns envCols rowsFresh (AdodbRows.Columns envCols rowsFresh []).2.2).1 =
      Returned.val ["a", "b"] ∧
    AdodbRows.Columns envCols (AdodbRows.Columns envCols rowsFresh []).2.1
        (AdodbRows.Columns envCols rowsFresh []).2.2 =
      (Returned.val ["a"], (AdodbRows.Columns envCols rowsFresh []).2.1,
        (AdodbRows.Columns envCols rowsFresh []).2.2) := by
  decide

/-- C4 (amended): once a `Columns()` call has returned a non-empty list, every later
`Columns()` call on that cursor returns the same list, leaves the cursor as it is and
makes no provider call, whatever the provider would report by then (the same or a
different field count, the same or different names). -/
theorem Columns_cached_after_fetch (env : Env) (rc rc' : AdodbRows) (tr tr' : Trace)
    (cols : List String) (h : AdodbRows.Columns env rc tr = (Returned.val cols, rc', tr'))
    (hne : cols ≠ []) (env2 : Env) (tr2 : Trace) :
    AdodbRows.Columns env2 rc' tr2 = (Returned.val cols, rc', tr2) := by
  have key : rc'.nc = (rc'.cols.length : Int) ∧ rc'.cols = cols := by
    unfold AdodbRows.Columns invoke at h
    by_cases hc : rc.nc = (rc.cols.length : Int)
    · simp only [hc, ne_eq, not_true_eq_false, if_false, Prod.mk.injEq,
        Returned.val.injEq] at h
      obtain ⟨h1, h2, _⟩ := h
      subst h2
      exact ⟨hc, h1⟩
    · simp only [ne_eq, hc, not_false_eq_true, if_true] at h
      cases h1 : env.oracle tr (getCall rc.rc "Fields") with
      | fail e =>
        simp only [h1, Prod.mk.injEq, Returned.val.injEq] at h
        exact absurd h.1.symm hne
      | ok unknown =>
        simp only [h1] at h
        rcases hf : columnsFetch env rc (env.toIDispatch unknown)
          (tr ++ [Event.call (getCall rc.rc "Fields") (Reply.ok unknown)] ++
            [Event.clear unknown]) with ⟨r, rc1, t⟩
        rw [hf] at h
        cases hd : env.toIDispatch unknown with
        | none => simp [hd] at h
        | some p =>
          simp only [hd, Prod.mk.injEq] at h
          obtain ⟨h3, h4, _⟩ := h
          subst h3
          subst h4
          exact columnsFetch_valid env rc rc1 _ _ t cols hf hne
  unfold AdodbRows.Columns
  simp [key.1, key.2]

theorem Columns_cached_after_fetch_witness :
    AdodbRows.Columns envCols rowsFresh [] =
      (Returned.val ["a"], ⟨none, some 7, 1, ["a"]⟩,
        (AdodbRows.Columns envCols rowsFresh []).2.2) ∧
    ["a"] ≠ [] ∧
    AdodbRows.Columns envFail ⟨none, some 7, 1, ["a"]⟩ [] =
      (Returned.val ["a"], ⟨none, some 7, 1, ["a"]⟩, []) :=
  ⟨by decide, by decide,
    Columns_cached_after_fetch envCols rowsFresh ⟨none, some 7, 1, ["a"]⟩ []
      (AdodbRows.Columns envCols rowsFresh []).2.2 ["a"] (by decide) (by decide) envFail []⟩


/-! ## Row fetch: structure of the loop -/

theorem nextField_shape (env : Env) (fields : Handle) (i : Nat) (d : List Value) (t : Trace) :
    (nextField env fields i d t).2.1.length = d.length ∧
    ∀ j, j ≠ i → (nextField env fields i d t).2.1[j]? = d[j]? := by
  unfold nextField invoke
  dsimp only
  repeat' split
  all_goals
    refine ⟨by simp, ?_⟩
    intro j hj
    first
      | rfl
      | exact List.getElem?_set_ne (Ne.symm hj)

theorem nextLoop_shape (env : Env) (fields : Handle) :
    ∀ (k i : Nat) (d : List Value) (t : Trace),
      (nextLoop env fields k i d t).2.1.length = d.length ∧
      ∀ j, (j < i ∨ i + k ≤ j) → (nextLoop env fields k i d t).2.1[j]? = d[j]? := by
  intro k
  induction k with
  | zero => intro i d t; exact ⟨rfl, fun _ _ => rfl⟩
  | succ k ih =>
    intro i d t
    have hf := nextField_shape env fields i d t
    unfold nextLoop
    rcases hres : nextField env fields i d t with ⟨st, d1, t1⟩
    rw [hres] at hf
    simp only at hf
    cases st with
    | cont =>
      simp only
      have hl := ih (i + 1) d1 t1
      refine ⟨hl.1.trans hf.1, ?_⟩
      intro j hj
      rw [hl.2 j (by omega)]
      exact hf.2 j (by omega)
    | ret e =>
      simp only
      exact ⟨hf.1, fun j hj => hf.2 j (by omega)⟩
    | panic f =>
      simp only
      exact ⟨hf.1, fun j hj => hf.2 j (by omega)⟩

theorem nextLoop_add (env : Env) (fields : Handle) :
    ∀ (a b i : Nat) (d : List Value) (t : Trace),
      nextLoop env fields (a + b) i d t =
        match nextLoop env fields a i d t with
        | (Step.cont, d1, t1) => nextLoop env fields b (i + a) d1 t1
        | r => r := by
  intro a
  induction a with
  | zero => intro b i d t; simp [nextLoop]
  | succ a ih =>
    intro b i d t
    have hstep : ∀ (k : Nat) (i : Nat) (d : List Value) (t : Trace),
        nextLoop env fields (k + 1) i d t =
          match nextField env fields i d t with
          | (Step.cont, d1, t1) => nextLoop env fields k (i + 1) d1 t1
          | r => r := fun _ _ _ _ => rfl
    have : a + 1 + b = (a + b) + 1 := by omega
    rw [this, hstep (a + b), hstep a]
    rcases hres : nextField env fields i d t with ⟨st, d1, t1⟩
    cases st with
    | cont =>
      simp only
      rw [ih b (i + 1) d1 t1]
      have : i + 1 + a = i + (a + 1) := by omega
      rw [this]
    | ret e => rfl
    | panic f => rfl

/-- When `Next` returns `nil`, it has arrived at every slot `i`, the slot then still held
its content from before the call, the loop body for it fell through, and what the body
left in the slot is what the caller finds there. -/
theorem nextLoop_slot (env : Env) (fields : Handle) (dest dest' : List Value) (tr1 tl : Trace)
    (hloop : nextLoop env fields dest.length 0 dest tr1 = (Step.cont, dest', tl))
    (i : Nat) (hi : i < dest.length) :
    ∃ d t d2 t2, nextLoop env fields i 0 dest tr1 = (Step.cont, d, t) ∧
      d.length = dest.length ∧ d[i]? = dest[i]? ∧
      nextField env fields i d t = (Step.cont, d2, t2) ∧ dest'[i]? = d2[i]? := by
  have hsplit : dest.length = i + (1 + (dest.length - i - 1)) := by omega
  rw [hsplit, nextLoop_add] at hloop
  have h1 := nextLoop_shape env fields i 0 dest tr1
  rcases hA : nextLoop env fields i 0 dest tr1 with ⟨stA, dA, tA⟩
  rw [hA] at hloop h1
  simp only at h1
  cases stA with
  | ret e => simp at hloop
  | panic f => simp at hloop
  | cont =>
    simp only at hloop
    rw [nextLoop_add] at hloop
    have hB1 : nextLoop env fields 1 (0 + i) dA tA =
        match nextField env fields i dA tA with
        | (Step.cont, d, t) => (Step.cont, d, t)
        | r => r := by
      simp only [nextLoop, Nat.zero_add]
    rw [hB1] at hloop
    rcases hF : nextField env fields i dA tA with ⟨stF, dF, tF⟩
    rw [hF] at hloop
    cases stF with
    | ret e => simp at hloop
    | panic f => simp at hloop
    | cont =>
      simp only at hloop
      have h2 := nextLoop_shape env fields (dest.length - i - 1) (0 + i + 1) dF tF
      rw [hloop] at h2
      simp only at h2
      exact ⟨dA, tA, dF, tF, rfl, h1.1, h1.2 i (by omega), hF, h2.2 i (by omega)⟩

/-- When `Next` returns `nil`, it has arrived at every slot `i`, the slot then still held
its content from before the call, the loop body for it fell through, and what the body
left in the slot is what the caller finds there. -/
theorem Next_slot (env : Env) (rc : AdodbRows) (dest dest' : List Value) (tr tr' : Trace)
    (hok : AdodbRows.Next env rc dest tr = (Outcome.ok, dest', tr'))
    (i : Nat) (hi : i < dest.length) :
    ∃ fields d t d2 t2, slotEntry env rc dest tr i = some (fields, d, t) ∧
      d.length = dest.length ∧ d[i]? = dest[i]? ∧
      nextField env fields i d t = (Step.cont, d2, t2) ∧ dest'[i]? = d2[i]? := by
  unfold AdodbRows.Next at hok
  unfold slotEntry
  cases hpre : nextPrelude env rc tr with
  | inl r =>
    rw [hpre] at hok
    obtain ⟨o, t0⟩ := r
    simp only [Prod.mk.injEq] at hok
    exfalso
    unfold nextPrelude invoke at hpre
    repeat' split at hpre
    all_goals simp_all
  | inr r =>
    obtain ⟨fields, tr1⟩ := r
    rw [hpre] at hok
    simp only at hok ⊢
    rcases hfetch : nextFetch env rc fields dest tr1 with ⟨o, dd, tt⟩
    rw [hfetch] at hok
    cases hfld : fields with
    | none => simp [hfld] at hok
    | some p =>
      simp only [hfld, Prod.mk.injEq] at hok
      obtain ⟨ho, hd, _⟩ := hok
      subst ho
      subst hd
      unfold nextFetch invoke at hfetch
      rcases hL : nextLoop env fields dest.length 0 dest tr1 with ⟨stL, dL, tL⟩
      rw [hL] at hfetch
      cases stL with
      | ret e => simp at hfetch
      | panic f => simp at hfetch
      | cont =>
        simp only at hfetch
        have hdl : dL = dd := by
          split at hfetch
          · simp at hfetch
          · simp only [Prod.mk.injEq] at hfetch
            exact hfetch.2.1
        subst hdl
        obtain ⟨d, t, d2, t2, ha, hb, hc, hd, he⟩ :=
          nextLoop_slot env fields dest dL tr1 tL hL i hi
        subst hfld
        rw [ha]
        exact ⟨_, d, t, d2, t2, rfl, hb, hc, hd, he⟩

/-! ## Row fetch: one slot -/

theorem nextField_null (env : Env) (fields : Handle) (i : Nat) (d : List Value) (t : Trace)
    (rv val : VARIANT) (hv : ReadsValue env fields i t rv val) (hnull : val.VT = 1) :
    nextField env fields i d t =
      match env.toIDispatch rv with
      | none =>
        (Step.panic Fault.nilDereference, d.set i Value.null,
          afterValue env fields i t rv val ++ [Event.clear val])
      | some _ =>
        (Step.cont, d.set i Value.null,
          afterValue env fields i t rv val ++
            [Event.clear val, Event.release (env.toIDispatch rv)]) := by
  obtain ⟨h1, h2⟩ := hv
  simp only [afterItem, List.append_assoc, List.singleton_append, List.cons_append,
    List.nil_append] at h2
  cases hfld : env.toIDispatch rv with
  | none =>
    rw [hfld] at h2
    simp [nextField, invoke, afterValue, afterItem, h1, h2, hnull, hfld]
  | some p =>
    rw [hfld] at h2
    simp [nextField, invoke, afterValue, afterItem, h1, h2, hnull, hfld]

theorem nextField_decoded (env : Env) (fields : Handle) (i : Nat) (d : List Value) (t : Trace)
    (rv val typ sc : VARIANT) (hv : ReadsValue env fields i t rv val) (hnn : val.VT ≠ 1)
    (hm : ReadsMeta env fields i t rv val typ sc) :
    nextField env fields i d t =
      match decode env typ sc val (d.getD i Value.null) (afterScale env fields i t rv val typ sc) with
      | (Step.cont, v, tr5) =>
        match env.toIDispatch rv with
        | none =>
          (Step.panic Fault.nilDereference, d.set i v,
            tr5 ++ [Event.clear typ, Event.clear sc, Event.clear val])
        | some _ =>
          (Step.cont, d.set i v,
            tr5 ++ [Event.clear typ, Event.clear sc, Event.clear val,
              Event.release (env.toIDispatch rv)])
      | (st, _, tr5) => (st, d, tr5) := by
  obtain ⟨h1, h2⟩ := hv
  obtain ⟨h3, h4⟩ := hm
  simp only [afterType, afterValue, afterItem, List.append_assoc, List.singleton_append,
    List.cons_append, List.nil_append] at h2 h3 h4
  cases hfld : env.toIDispatch rv with
  | none =>
    rw [hfld] at h2 h3 h4
    simp [nextField, invoke, afterScale, afterType, afterValue, afterItem, h1, h2, h3, h4, hnn,
      hfld]
  | some p =>
    rw [hfld] at h2 h3 h4
    simp [nextField, invoke, afterScale, afterType, afterValue, afterItem, h1, h2, h3, h4, hnn,
      hfld]

theorem decode_unimplemented (env : Env) (typ sc val : VARIANT) (prior : Value) (tr : Trace)
    (h : typ.Val = 10 ∨ typ.Val = 21 ∨ typ.Val = 204) :
    decode env typ sc val prior tr = (Step.cont, prior, tr) := by
  rcases h with h | h | h <;> simp [decode, h]

theorem decode_smallint (env : Env) (typ sc val : VARIANT) (prior : Value) (tr : Trace)
    (h : typ.Val = 2) :
    decode env typ sc val prior tr = (Step.cont, Value.int64 (toSigned 16 val.Val), tr) := by
  have hr := toSigned_16_range val.Val
  have h64 : toSigned 64 (toSigned 16 val.Val) = toSigned 16 val.Val :=
    toSigned_64_of_range _ (by have := hr.1; norm_num at this ⊢; omega)
      (by have := hr.2.1; norm_num at this ⊢; omega)
  simp [decode, h, h64]

theorem decode_integer (env : Env) (typ sc val : VARIANT) (prior : Value) (tr : Trace)
    (h : typ.Val = 3) :
    decode env typ sc val prior tr = (Step.cont, Value.int64 (toSigned 32 val.Val), tr) := by
  have hr := toSigned_32_range val.Val
  have h64 : toSigned 64 (toSigned 32 val.Val) = toSigned 32 val.Val :=
    toSigned_64_of_range _ (by have := hr.1; norm_num at this ⊢; omega)
      (by have := hr.2.1; norm_num at this ⊢; omega)
  simp [decode, h, h64]


/-! ## Row fetch: the decoded slot -/

/-- C8: when `Next` returns `nil`, then for every slot `i` whose field value carries the
NULL tag (`VT = 1`), whatever the provider would report as type code and numeric scale,
the slot holds `nil` afterwards, and the events of that slot are: fetch the field, clear
the reply, read `Value`, clear it, release the field; `Type` and `NumericScale` are not
read. -/
theorem Next_null_wins (env : Env) (rc : AdodbRows) (dest dest' : List Value) (tr tr' : Trace)
    (hok : AdodbRows.Next env rc dest tr = (Outcome.ok, dest', tr'))
    (i : Nat) (hi : i < dest.length) :
    ∃ fields d t, slotEntry env rc dest tr i = some (fields, d, t) ∧
      ∀ rv val, ReadsValue env fields i t rv val → val.VT = 1 →
        dest'[i]? = some Value.null ∧
        nextField env fields i d t =
          (Step.cont, d.set i Value.null,
            t ++ [Event.call (itemCall fields i) (Reply.ok rv), Event.clear rv,
              Event.call (getCall (env.toIDispatch rv) "Value") (Reply.ok val),
              Event.clear val, Event.release (env.toIDispatch rv)]) ∧
        ∀ c r, Event.call c r ∈
            [Event.call (itemCall fields i) (Reply.ok rv), Event.clear rv,
              Event.call (getCall (env.toIDispatch rv) "Value") (Reply.ok val),
              Event.clear val, Event.release (env.toIDispatch rv)] →
          c.name ≠ "Type" ∧ c.name ≠ "NumericScale" := by
  obtain ⟨fields, d, t, d2, t2, hs, hlen, _, hf, hd⟩ := Next_slot env rc dest dest' tr tr' hok i hi
  refine ⟨fields, d, t, hs, ?_⟩
  intro rv val hv hnull
  have hn := nextField_null env fields i d t rv val hv hnull
  rw [hn] at hf
  cases hfld : env.toIDispatch rv with
  | none => simp [hfld] at hf
  | some p =>
  rw [hfld] at hn
  simp only [hfld, Prod.mk.injEq, true_and] at hf
  refine ⟨?_, ?_, ?_⟩
  · rw [hd, ← hf.1]
    simp [hlen, hi]
  · rw [hn]
    simp [afterValue, afterItem, hfld]
  · intro c r hc
    simp only [List.mem_cons, Event.call.injEq, List.mem_singleton, List.not_mem_nil,
      or_false, false_or, reduceCtorEq] at hc
    rcases hc with ⟨rfl, _⟩ | ⟨rfl, _⟩ <;> simp [itemCall, getCall]

theorem Next_null_wins_witness :
    AdodbRows.Next envRow rowsFresh rowDest [] =
      (Outcome.ok, [Value.null, Value.int64 (-1), Value.int64 7],
        (AdodbRows.Next envRow rowsFresh rowDest []).2.2) ∧
    ([Value.null, Value.int64 (-1), Value.int64 7] : List Value)[0]? = some Value.null := by
  have hok : AdodbRows.Next envRow rowsFresh rowDest [] =
      (Outcome.ok, [Value.null, Value.int64 (-1), Value.int64 7],
        (AdodbRows.Next envRow rowsFresh rowDest []).2.2) := by decide
  refine ⟨hok, ?_⟩
  obtain ⟨fields, d, t, hs, hall⟩ :=
    Next_null_wins envRow rowsFresh rowDest _ [] _ hok 0 (by decide)
  have hs' : slotEntry envRow rowsFresh rowDest [] 0 = some (some 8, rowDest, rowTraceAt 0) := by
    decide
  rw [hs'] at hs
  simp only [Option.some.injEq, Prod.mk.injEq] at hs
  obtain ⟨rfl, rfl, rfl⟩ := hs
  exact (hall ⟨9, 10⟩ ⟨1, 0⟩ (by decide) (by decide)).1

/-- C6 (counterexample): field 2 is not NULL (`VT = 10`) and its type code is error(10);
the slot held 7 before the call; `Next` returns `nil` and the slot still holds 7, not
NULL. -/
theorem Next_unimplemented_leaves_stale_value :
    ReadsValue envRow (some 8) 2 (rowTraceAt 2) ⟨9, 12⟩ ⟨10, 5⟩ ∧
    ReadsMeta envRow (some 8) 2 (rowTraceAt 2) ⟨9, 12⟩ ⟨10, 5⟩ ⟨3, 10⟩ ⟨17, 0⟩ ∧
    (AdodbRows.Next envRow rowsFresh rowDest []).1 = Outcome.ok ∧
    (AdodbRows.Next envRow rowsFresh rowDest []).2.1[2]? = some (Value.int64 7) ∧
    (AdodbRows.Next envRow rowsFresh rowDest []).2.1[2]? ≠ some Value.null := by
  decide

/-- C6 (amended): when `Next` returns `nil`, every slot whose field is not NULL and has
the type code error(10), unsigned big-int(21) or var-binary(204) holds afterwards exactly
what it held before the call, whatever that was. -/
theorem Next_unimplemented_keeps_slot (env : Env) (rc : AdodbRows) (dest dest' : List Value)
    (tr tr' : Trace) (hok : AdodbRows.Next env rc dest tr = (Outcome.ok, dest', tr'))
    (i : Nat) (hi : i < dest.length) :
    ∃ fields d t, slotEntry env rc dest tr i = some (fields, d, t) ∧
      ∀ rv val typ sc, ReadsValue env fields i t rv val → val.VT ≠ 1 →
        ReadsMeta env fields i t rv val typ sc →
        (typ.Val = 10 ∨ typ.Val = 21 ∨ typ.Val = 204) →
        dest'[i]? = dest[i]? := by
  obtain ⟨fields, d, t, d2, t2, hs, hlen, hprior, hf, hd⟩ :=
    Next_slot env rc dest dest' tr tr' hok i hi
  refine ⟨fields, d, t, hs, ?_⟩
  intro rv val typ sc hv hnn hm htyp
  have hn := nextField_decoded env fields i d t rv val typ sc hv hnn hm
  rw [decode_unimplemented env typ sc val _ _ htyp] at hn
  simp only at hn
  rw [hn] at hf
  cases hfld : env.toIDispatch rv with
  | none => simp [hfld] at hf
  | some p =>
  simp only [hfld, Prod.mk.injEq, true_and] at hf
  have hid : i < d.length := by omega
  rw [hd, ← hf.1, ← hprior]
  simp [List.getD, hid]

theorem Next_unimplemented_keeps_slot_witness :
    AdodbRows.Next envRow rowsFresh rowDest [] =
      (Outcome.ok, [Value.null, Value.int64 (-1), Value.int64 7],
        (AdodbRows.Next envRow rowsFresh rowDest []).2.2) ∧
    ([Value.null, Value.int64 (-1), Value.int64 7] : List Value)[2]? = rowDest[2]? := by
  have hok : AdodbRows.Next envRow rowsFresh rowDest [] =
      (Outcome.ok, [Value.null, Value.int64 (-1), Value.int64 7],
        (AdodbRows.Next envRow rowsFresh rowDest []).2.2) := by decide
  refine ⟨hok, ?_⟩
  obtain ⟨fields, d, t, hs, hall⟩ :=
    Next_unimplemented_keeps_slot envRow rowsFresh rowDest _ [] _ hok 2 (by decide)
  have hs' : slotEntry envRow rowsFresh rowDest [] 2 =
      some (some 8, [Value.null, Value.int64 (-1), Value.int64 7], rowTraceAt 2) := by
    decide
  rw [hs'] at hs
  simp only [Option.some.injEq, Prod.mk.injEq] at hs
  obtain ⟨rfl, rfl, rfl⟩ := hs
  exact hall ⟨9, 12⟩ ⟨10, 5⟩ ⟨3, 10⟩ ⟨17, 0⟩ (by decide) (by decide) (by decide) (by decide)

/-- C10: when `Next` returns `nil`, a slot whose field is not NULL holds, for type code
small-int(2), the int64 `r` with `-2^15 ≤ r < 2^15` and `r ≡ v (mod 2^16)`, and for type
code integer(3) the int64 `r` with `-2^31 ≤ r < 2^31` and `r ≡ v (mod 2^32)`, where `v`
is the raw payload; a payload whose low 16 bits are 0xFFFF gives -1 under type 2. -/
theorem Next_int_sign_extension (env : Env) (rc : AdodbRows) (dest dest' : List Value)
    (tr tr' : Trace) (hok : AdodbRows.Next env rc dest tr = (Outcome.ok, dest', tr'))
    (i : Nat) (hi : i < dest.length) :
    ∃ fields d t, slotEntry env rc dest tr i = some (fields, d, t) ∧
      ∀ rv val typ sc, ReadsValue env fields i t rv val → val.VT ≠ 1 →
        ReadsMeta env fields i t rv val typ sc →
        (typ.Val = 2 → ∃ r, dest'[i]? = some (Value.int64 r) ∧
          -2 ^ 15 ≤ r ∧ r < 2 ^ 15 ∧ r % 2 ^ 16 = val.Val % 2 ^ 16 ∧
          (val.Val % 2 ^ 16 = 65535 → r = -1)) ∧
        (typ.Val = 3 → ∃ r, dest'[i]? = some (Value.int64 r) ∧
          -2 ^ 31 ≤ r ∧ r < 2 ^ 31 ∧ r % 2 ^ 32 = val.Val % 2 ^ 32) := by
  obtain ⟨fields, d, t, d2, t2, hs, hlen, _, hf, hd⟩ :=
    Next_slot env rc dest dest' tr tr' hok i hi
  refine ⟨fields, d, t, hs, ?_⟩
  intro rv val typ sc hv hnn hm
  have hn := nextField_decoded env fields i d t rv val typ sc hv hnn hm
  have hid : i < d.length := by omega
  constructor
  · intro htyp
    rw [decode_smallint env typ sc val _ _ htyp] at hn
    simp only at hn
    rw [hn] at hf
    cases hfld : env.toIDispatch rv with
    | none => simp [hfld] at hf
    | some p =>
    simp only [hfld, Prod.mk.injEq, true_and] at hf
    have hr := toSigned_16_range val.Val
    refine ⟨toSigned 16 val.Val, ?_, hr.1, hr.2.1, hr.2.2, ?_⟩
    · rw [hd, ← hf.1]
      simp [hid]
    · intro hff
      have h1 := hr.1
      have h2 := hr.2.1
      have h3 := hr.2.2
      rw [hff] at h3
      norm_num at h1 h2 h3 ⊢
      omega
  · intro htyp
    rw [decode_integer env typ sc val _ _ htyp] at hn
    simp only at hn
    rw [hn] at hf
    cases hfld : env.toIDispatch rv with
    | none => simp [hfld] at hf
    | some p =>
    simp only [hfld, Prod.mk.injEq, true_and] at hf
    have hr := toSigned_32_range val.Val
    refine ⟨toSigned 32 val.Val, ?_, hr.1, hr.2.1, hr.2.2⟩
    rw [hd, ← hf.1]
    simp [hid]

theorem Next_int_sign_extension_witness :
    AdodbRows.Next envRow rowsFresh rowDest [] =
      (Outcome.ok, [Value.null, Value.int64 (-1), Value.int64 7],
        (AdodbRows.Next envRow rowsFresh rowDest []).2.2) ∧
    ∃ r, ([Value.null, Value.int64 (-1), Value.int64 7] : List Value)[1]? = some (Value.int64 r) ∧
      -2 ^ 15 ≤ r ∧ r < 2 ^ 15 ∧ r % 2 ^ 16 = (65535 : Int) % 2 ^ 16 ∧
      ((65535 : Int) % 2 ^ 16 = 65535 → r = -1) := by
  have hok : AdodbRows.Next envRow rowsFresh rowDest [] =
      (Outcome.ok, [Value.null, Value.int64 (-1), Value.int64 7],
        (AdodbRows.Next envRow rowsFresh rowDest []).2.2) := by decide
  refine ⟨hok, ?_⟩
  obtain ⟨fields, d, t, hs, hall⟩ :=
    Next_int_sign_extension envRow rowsFresh rowDest _ [] _ hok 1 (by decide)
  have hs' : slotEntry envRow rowsFresh rowDest [] 1 =
      some (some 8, [Value.null, Value.int64 7, Value.int64 7], rowTraceAt 1) := by
    decide
  rw [hs'] at hs
  simp only [Option.some.injEq, Prod.mk.injEq] at hs
  obtain ⟨rfl, rfl, rfl⟩ := hs
  exact (hall ⟨9, 11⟩ ⟨2, 65535⟩ ⟨3, 2⟩ ⟨17, 0⟩ (by decide) (by decide) (by decide)).1 rfl


/-! ## Row fetch: provider failures -/

theorem nilObject_append_left (env : Env) (q evs : List Event) (h : NilObject env evs) :
    NilObject env (q ++ evs) := by
  obtain ⟨c, v, hm, hn, hnil⟩ := h
  exact ⟨c, v, List.mem_append_right q hm, hn, hnil⟩

theorem nilObject_append_right (env : Env) (evs q : List Event) (h : NilObject env evs) :
    NilObject env (evs ++ q) := by
  obtain ⟨c, v, hm, hn, hnil⟩ := h
  exact ⟨c, v, List.mem_append_left q hm, hn, hnil⟩

theorem surfaced_quiet (env : Env) (tr : Trace) (o : Outcome) (q : List Event) (hq : Quiet q)
    (ho : o ≠ Outcome.err GoError.eof) : Surfaced env tr (o, tr ++ q) :=
  ⟨q, rfl, fun c e h => absurd h (hq c e), ho⟩

theorem surfaced_fail (env : Env) (tr : Trace) (q1 q2 : List Event) (c : Call) (e : OleError)
    (h1 : Quiet q1) (h2 : Quiet q2) :
    Surfaced env tr
      (Outcome.err (GoError.ole e), tr ++ q1 ++ [Event.call c (Reply.fail e)] ++ q2) := by
  refine ⟨q1 ++ [Event.call c (Reply.fail e)] ++ q2, by simp, ?_, by simp⟩
  intro c' e' h
  simp only [List.append_assoc, List.mem_append, List.mem_singleton, Event.call.injEq,
    Reply.fail.injEq] at h
  rcases h with h | h | h
  · exact absurd h (h1 c' e')
  · rw [h.2]
    exact Or.inl rfl
  · exact absurd h (h2 c' e')

theorem surfaced_nil_release (env : Env) (tr : Trace) (evs : List Event)
    (h : NilObject env evs) :
    Surfaced env tr (Outcome.panic Fault.nilDereference, tr ++ evs) :=
  ⟨evs, rfl, fun _ _ _ => Or.inr ⟨rfl, h⟩, by simp⟩

theorem surfaced_skip (env : Env) (tr : Trace) (q : List Event) (hq : Quiet q)
    (r : Outcome × Trace) (h : Surfaced env (tr ++ q) r) : Surfaced env tr r := by
  obtain ⟨evs, h1, h2, h3⟩ := h
  refine ⟨q ++ evs, by rw [h1, List.append_assoc], ?_, h3⟩
  intro c e hm
  rcases List.mem_append.mp hm with hm | hm
  · exact absurd hm (hq c e)
  · rcases h2 c e hm with h | ⟨h, hn⟩
    · exact Or.inl h
    · exact Or.inr ⟨h, nilObject_append_left env q evs hn⟩

theorem surfaced_suffix (env : Env) (tr : Trace) (q : List Event) (hq : Quiet q) (o : Outcome)
    (t : Trace) (h : Surfaced env tr (o, t)) : Surfaced env tr (o, t ++ q) := by
  obtain ⟨evs, h1, h2, h3⟩ := h
  simp only at h1 h2 h3
  refine ⟨evs ++ q, by simp [h1], ?_, h3⟩
  intro c e hm
  rcases List.mem_append.mp hm with hm | hm
  · rcases h2 c e hm with h | ⟨h, hn⟩
    · exact Or.inl h
    · exact Or.inr ⟨h, nilObject_append_right env evs q hn⟩
  · exact absurd hm (hq c e)

theorem surfaced_trans (env : Env) (tr t1 : Trace) (r : Outcome × Trace)
    (h1 : Surfaced env tr (Outcome.ok, t1)) (h2 : Surfaced env t1 r) : Surfaced env tr r := by
  obtain ⟨e1, ha, hb, _⟩ := h1
  obtain ⟨e2, hc, hd, he⟩ := h2
  simp only at ha hb
  refine ⟨e1 ++ e2, by rw [hc, ha, List.append_assoc], ?_, he⟩
  intro c e hm
  rcases List.mem_append.mp hm with hm | hm
  · rcases hb c e hm with h | ⟨h, _⟩
    · exact absurd h (by simp)
    · exact absurd h (by simp)
  · rcases hd c e hm with h | ⟨h, hn⟩
    · exact Or.inl h
    · exact Or.inr ⟨h, nilObject_append_left env e1 e2 hn⟩

/-- After a piece that fell through, quiet events followed by any ending but `io.EOF`. -/
theorem surfaced_after_ok (env : Env) (tr t1 : Trace) (o : Outcome) (q : List Event)
    (h1 : Surfaced env tr (Outcome.ok, t1)) (hq : Quiet q) (ho : o ≠ Outcome.err GoError.eof) :
    Surfaced env tr (o, t1 ++ q) :=
  surfaced_trans env tr t1 _ h1 (surfaced_quiet env t1 o q hq ho)

theorem quiet_ok (c : Call) (v : VARIANT) : Quiet [Event.call c (Reply.ok v)] := by
  intro c' e h
  simp at h

theorem quiet_clear (v : VARIANT) : Quiet [Event.clear v] := by
  intro c' e h
  simp at h

theorem quiet_append (q1 q2 : List Event) (h1 : Quiet q1) (h2 : Quiet q2) : Quiet (q1 ++ q2) := by
  intro c e h
  rcases List.mem_append.mp h with h | h
  · exact h1 c e h
  · exact h2 c e h

theorem quiet_nil : Quiet [] := by
  intro c e h
  simp at h

theorem decodeBinary_surfaced (env : Env) (val : VARIANT) (prior : Value) (tr : Trace) :
    Surfaced env tr
      ((decodeBinary env val prior tr).1.toOutcome, (decodeBinary env val prior tr).2.2) := by
  unfold decodeBinary invoke
  cases h : env.oracle tr ⟨Kind.safeArray, toPtr val.Val, "TotalElements", [Arg.int 0]⟩ with
  | fail e =>
    simpa [Step.toOutcome] using surfaced_fail env tr [] [] _ e quiet_nil quiet_nil
  | ok elems =>
    simp only
    repeat' split
    all_goals exact surfaced_quiet env tr _ _ (quiet_ok _ _) (by simp [Step.toOutcome])

theorem pred_ite {α : Type} (P : α → Prop) (c : Prop) [Decidable c] (a b : α)
    (ha : P a) (hb : P b) : P (if c then a else b) := by
  split
  · exact ha
  · exact hb

theorem decode_cases (env : Env) (typ sc val : VARIANT) (prior : Value) (tr : Trace) :
    (∃ v, decode env typ sc val prior tr = (Step.cont, v, tr)) ∨
    decode env typ sc val prior tr = decodeBinary env val prior tr := by
  obtain ⟨P, hP⟩ : ∃ P : Step × Value × Trace → Prop,
      P = fun r => (∃ v, r = (Step.cont, v, tr)) ∨ r = decodeBinary env val prior tr :=
    ⟨_, rfl⟩
  have key : P (decode env typ sc val prior tr) := by
    unfold decode
    repeat' apply pred_ite P
    all_goals
      rw [hP]
      first
        | exact Or.inr rfl
        | exact Or.inl ⟨_, rfl⟩
  rw [hP] at key
  exact key

theorem decode_surfaced (env : Env) (typ sc val : VARIANT) (prior : Value) (tr : Trace) :
    Surfaced env tr
      ((decode env typ sc val prior tr).1.toOutcome, (decode env typ sc val prior tr).2.2) := by
  rcases decode_cases env typ sc val prior tr with ⟨v, h⟩ | h
  · rw [h]
    simpa [Step.toOutcome] using surfaced_quiet env tr Outcome.ok [] quiet_nil (by simp)
  · rw [h]
    exact decodeBinary_surfaced env val prior tr

theorem nextField_surfaced (env : Env) (fields : Handle) (i : Nat) (d : List Value) (t : Trace) :
    Surfaced env t
      ((nextField env fields i d t).1.toOutcome, (nextField env fields i d t).2.2) := by
  unfold nextField invoke
  cases h1 : env.oracle t (itemCall fields i) with
  | fail e => simpa [Step.toOutcome] using surfaced_fail env t [] [] _ e quiet_nil quiet_nil
  | ok rv =>
    simp only
    cases hfld : env.toIDispatch rv with
    | none =>
      have hNil : ∀ q, NilObject env
          ([Event.call (itemCall fields i) (Reply.ok rv), Event.clear rv] ++ q) := by
        intro q
        exact ⟨itemCall fields i, rv, by simp, Or.inr rfl, hfld⟩
      cases h2 : env.oracle (t ++ [Event.call (itemCall fields i) (Reply.ok rv)] ++
          [Event.clear rv]) (getCall none "Value") with
      | fail e =>
        simpa [Step.toOutcome] using surfaced_nil_release env t _ (hNil
          [Event.call (getCall none "Value") (Reply.fail e)])
      | ok val =>
        simp only
        by_cases hvt : val.VT = 1
        · simp only [hvt, if_true]
          simpa [Step.toOutcome] using surfaced_nil_release env t _ (hNil
            [Event.call (getCall none "Value") (Reply.ok val), Event.clear val])
        · simp only [hvt, if_false]
          cases h3 : env.oracle (t ++ [Event.call (itemCall fields i) (Reply.ok rv)] ++
              [Event.clear rv] ++ [Event.call (getCall none "Value") (Reply.ok val)])
              (getCall none "Type") with
          | fail e =>
            simpa [Step.toOutcome] using surfaced_nil_release env t _ (hNil
              [Event.call (getCall none "Value") (Reply.ok val),
                Event.call (getCall none "Type") (Reply.fail e), Event.clear val])
          | ok typ =>
            simp only
            cases h4 : env.oracle (t ++ [Event.call (itemCall fields i) (Reply.ok rv)] ++
                [Event.clear rv] ++ [Event.call (getCall none "Value") (Reply.ok val)] ++
                [Event.call (getCall none "Type") (Reply.ok typ)])
                (getCall none "NumericScale") with
            | fail e =>
              simpa [Step.toOutcome] using surfaced_nil_release env t _ (hNil
                [Event.call (getCall none "Value") (Reply.ok val),
                  Event.call (getCall none "Type") (Reply.ok typ),
                  Event.call (getCall none "NumericScale") (Reply.fail e),
                  Event.clear typ, Event.clear val])
            | ok sc =>
              simp only
              have hq : Quiet ([Event.call (itemCall fields i) (Reply.ok rv), Event.clear rv,
                  Event.call (getCall none "Value") (Reply.ok val),
                  Event.call (getCall none "Type") (Reply.ok typ),
                  Event.call (getCall none "NumericScale") (Reply.ok sc)]) := by
                intro c e h
                simp at h
              have ht4 : t ++ [Event.call (itemCall fields i) (Reply.ok rv)] ++
                  [Event.clear rv] ++ [Event.call (getCall none "Value") (Reply.ok val)] ++
                  [Event.call (getCall none "Type") (Reply.ok typ)] ++
                  [Event.call (getCall none "NumericScale") (Reply.ok sc)] =
                  t ++ [Event.call (itemCall fields i) (Reply.ok rv), Event.clear rv,
                    Event.call (getCall none "Value") (Reply.ok val),
                    Event.call (getCall none "Type") (Reply.ok typ),
                    Event.call (getCall none "NumericScale") (Reply.ok sc)] := by
                simp
              rw [ht4]
              generalize hqd : [Event.call (itemCall fields i) (Reply.ok rv), Event.clear rv,
                    Event.call (getCall none "Value") (Reply.ok val),
                    Event.call (getCall none "Type") (Reply.ok typ),
                    Event.call (getCall none "NumericScale") (Reply.ok sc)] = qd at hq
              have hNilq : ∀ q, NilObject env (qd ++ q) := by
                intro q
                rw [← hqd]
                exact ⟨itemCall fields i, rv, by simp, Or.inr rfl, hfld⟩
              have hdec := decode_surfaced env typ sc val (d.getD i Value.null) (t ++ qd)
              rcases hres : decode env typ sc val (d.getD i Value.null) (t ++ qd) with
                ⟨st, v, t5⟩
              rw [hres] at hdec
              simp only at hdec
              cases st with
              | cont =>
                simp only
                obtain ⟨evs, hevs, _, _⟩ := hdec
                simp only at hevs
                rw [hevs]
                have := surfaced_nil_release env t _ (hNilq
                  (evs ++ [Event.clear typ, Event.clear sc, Event.clear val]))
                simpa [Step.toOutcome, List.append_assoc] using this
              | ret e => exact surfaced_skip env t qd hq _ hdec
              | panic f => exact surfaced_skip env t qd hq _ hdec
    | some p =>
      apply surfaced_skip env t _
        (quiet_append _ _ (quiet_ok (itemCall fields i) rv) (quiet_clear rv))
      rw [← List.append_assoc]
      generalize t ++ [Event.call (itemCall fields i) (Reply.ok rv)] ++ [Event.clear rv] = t1
      cases h2 : env.oracle t1 (getCall (some p) "Value") with
      | fail e =>
        simpa [Step.toOutcome] using surfaced_fail env t1 [] [Event.release (some p)] _ e
          quiet_nil (by intro c e h; simp at h)
      | ok val =>
        simp only
        apply surfaced_skip env t1 _ (quiet_ok (getCall (some p) "Value") val)
        generalize t1 ++ [Event.call (getCall (some p) "Value") (Reply.ok val)] = t2
        by_cases hvt : val.VT = 1
        · simp only [hvt, if_true]
          exact surfaced_quiet env t2 _ _ (by intro c e h; simp at h) (by simp [Step.toOutcome])
        · simp only [hvt, if_false]
          cases h3 : env.oracle t2 (getCall (some p) "Type") with
          | fail e =>
            simpa [Step.toOutcome] using surfaced_fail env t2 []
              [Event.clear val, Event.release (some p)] _ e quiet_nil
              (by intro c e h; simp at h)
          | ok typ =>
            simp only
            apply surfaced_skip env t2 _ (quiet_ok (getCall (some p) "Type") typ)
            generalize t2 ++ [Event.call (getCall (some p) "Type") (Reply.ok typ)] = t3
            cases h4 : env.oracle t3 (getCall (some p) "NumericScale") with
            | fail e =>
              simpa [Step.toOutcome] using surfaced_fail env t3 []
                [Event.clear typ, Event.clear val, Event.release (some p)]
                _ e quiet_nil (by intro c e h; simp at h)
            | ok sc =>
              simp only
              apply surfaced_skip env t3 _
                (quiet_ok (getCall (some p) "NumericScale") sc)
              generalize
                t3 ++ [Event.call (getCall (some p) "NumericScale") (Reply.ok sc)] = t4
              have hdec := decode_surfaced env typ sc val (d.getD i Value.null) t4
              rcases hres : decode env typ sc val (d.getD i Value.null) t4 with ⟨st, v, t5⟩
              rw [hres] at hdec
              simp only at hdec
              cases st with
              | cont =>
                simp only
                exact surfaced_suffix env t4 _ (by intro c e h; simp at h) _ _ hdec
              | ret e => exact hdec
              | panic f => exact hdec

theorem nextLoop_surfaced (env : Env) (fields : Handle) :
    ∀ (k i : Nat) (d : List Value) (t : Trace),
      Surfaced env t
        ((nextLoop env fields k i d t).1.toOutcome, (nextLoop env fields k i d t).2.2) := by
  intro k
  induction k with
  | zero =>
    intro i d t
    simpa [nextLoop, Step.toOutcome] using surfaced_quiet env t Outcome.ok [] quiet_nil (by simp)
  | succ k ih =>
    intro i d t
    have hf := nextField_surfaced env fields i d t
    unfold nextLoop
    rcases hres : nextField env fields i d t with ⟨st, d1, t1⟩
    rw [hres] at hf
    simp only at hf
    cases st with
    | cont => exact surfaced_trans env t t1 _ hf (ih (i + 1) d1 t1)
    | ret e => exact hf
    | panic f => exact hf

theorem nextFetch_surfaced (env : Env) (rc : AdodbRows) (fields : Handle) (dest : List Value)
    (tr : Trace) :
    Surfaced env tr ((nextFetch env rc fields dest tr).1, (nextFetch env rc fields dest tr).2.2) := by
  have hloop := nextLoop_surfaced env fields dest.length 0 dest tr
  unfold nextFetch invoke
  rcases hres : nextLoop env fields dest.length 0 dest tr with ⟨st, d, t⟩
  rw [hres] at hloop
  simp only at hloop
  cases st with
  | cont =>
    simp only [Step.toOutcome] at hloop
    simp only
    cases h3 : env.oracle t ⟨Kind.method, rc.rc, "MoveNext", []⟩ with
    | fail e =>
      simpa using surfaced_trans env tr t _ hloop
        (surfaced_fail env t [] [] ⟨Kind.method, rc.rc, "MoveNext", []⟩ e quiet_nil quiet_nil)
    | ok rv =>
      have := surfaced_suffix env tr
        [Event.call ⟨Kind.method, rc.rc, "MoveNext", []⟩ (Reply.ok rv), Event.clear rv]
        (by intro c e h; simp at h) _ _ hloop
      simpa using this
  | ret e => exact hloop
  | panic f => exact hloop

/-- C5 (counterexample): the provider rejects the read of the end-of-data flag, and `Next`
reports `io.EOF`, not that failure. -/
theorem Next_eof_read_failure_is_end_of_rows :
    envFail.oracle [] (getCall rowsFresh.rc "EOF") = Reply.fail ⟨-2147467259⟩ ∧
    AdodbRows.Next envFail rowsFresh rowDest [] =
      (Outcome.err GoError.eof, rowDest,
        [Event.call (getCall rowsFresh.rc "EOF") (Reply.fail ⟨-2147467259⟩)]) := by
  decide

/-- C5 (amended): `Next` returns `io.EOF` exactly when the read of the end-of-data flag
failed or the flag was read and is set.  Whenever any other provider call made by `Next`
fails (the `Fields` collection, a field item, its `Value`, `Type` or `NumericScale`, the
element count of a binary value, or `MoveNext`), `Next` returns that failure, which is
not `io.EOF`, provided the `Fields` and `Item` replies it obtained convert to non-nil
objects; if one of them is nil, `Next` returns the failure or faults on releasing the nil
handle. -/
theorem Next_failures_surfaced (env : Env) (rc : AdodbRows) (dest : List Value) (tr : Trace) :
    ((AdodbRows.Next env rc dest tr).1 = Outcome.err GoError.eof ↔
      ((∃ e, env.oracle tr (getCall rc.rc "EOF") = Reply.fail e) ∨
        ∃ v, env.oracle tr (getCall rc.rc "EOF") = Reply.ok v ∧ v.Val ≠ 0)) ∧
    ∃ evs, (AdodbRows.Next env rc dest tr).2.2 = tr ++ evs ∧
      ∀ c e, Event.call c (Reply.fail e) ∈ evs → c ≠ getCall rc.rc "EOF" →
        ((AdodbRows.Next env rc dest tr).1 = Outcome.err (GoError.ole e) ∨
          ((AdodbRows.Next env rc dest tr).1 = Outcome.panic Fault.nilDereference ∧
            NilObject env evs)) ∧
        (¬ NilObject env evs →
          (AdodbRows.Next env rc dest tr).1 = Outcome.err (GoError.ole e)) := by
  have conclude : ∀ (o : Outcome) (t : Trace), Surfaced env tr (o, t) →
      ∃ evs, t = tr ++ evs ∧
        ∀ c e, Event.call c (Reply.fail e) ∈ evs → c ≠ getCall rc.rc "EOF" →
          (o = Outcome.err (GoError.ole e) ∨
            (o = Outcome.panic Fault.nilDereference ∧ NilObject env evs)) ∧
          (¬ NilObject env evs → o = Outcome.err (GoError.ole e)) := by
    intro o t hs
    obtain ⟨evs, h1, h2, _⟩ := hs
    refine ⟨evs, h1, ?_⟩
    intro c e hm _
    refine ⟨h2 c e hm, ?_⟩
    intro hn
    rcases h2 c e hm with h | ⟨_, h⟩
    · exact h
    · exact absurd h hn
  unfold AdodbRows.Next nextPrelude invoke
  cases h1 : env.oracle tr (getCall rc.rc "EOF") with
  | fail e0 =>
    refine ⟨by simp, [Event.call (getCall rc.rc "EOF") (Reply.fail e0)], rfl, ?_⟩
    intro c e hm hc
    simp only [List.mem_singleton, Event.call.injEq] at hm
    exact absurd hm.1 hc
  | ok eof =>
    simp only
    by_cases hz : eof.Val = 0
    · simp only [hz, ne_eq, not_true_eq_false, if_false]
      cases h2 : env.oracle (tr ++ [Event.call (getCall rc.rc "EOF") (Reply.ok eof)] ++
          [Event.clear eof]) (getCall rc.rc "Fields") with
      | fail e1 =>
        refine ⟨by simp [hz], ?_⟩
        have hc := conclude _ _ (surfaced_fail env tr
          [Event.call (getCall rc.rc "EOF") (Reply.ok eof), Event.clear eof] []
          (getCall rc.rc "Fields") e1 (by intro c e h; simp at h) quiet_nil)
        simpa only [List.append_assoc, List.cons_append, List.nil_append,
          List.singleton_append, List.append_nil, ne_eq] using hc
      | ok unknown =>
        simp only
        have hq : Quiet [Event.call (getCall rc.rc "EOF") (Reply.ok eof), Event.clear eof,
            Event.call (getCall rc.rc "Fields") (Reply.ok unknown), Event.clear unknown] := by
          intro c e h
          simp at h
        have htr1 : tr ++ [Event.call (getCall rc.rc "EOF") (Reply.ok eof)] ++
            [Event.clear eof] ++ [Event.call (getCall rc.rc "Fields") (Reply.ok unknown)] ++
            [Event.clear unknown] =
            tr ++ [Event.call (getCall rc.rc "EOF") (Reply.ok eof), Event.clear eof,
              Event.call (getCall rc.rc "Fields") (Reply.ok unknown), Event.clear unknown] := by
          simp
        rw [htr1]
        have hf := nextFetch_surfaced env rc (env.toIDispatch unknown) dest
          (tr ++ [Event.call (getCall rc.rc "EOF") (Reply.ok eof), Event.clear eof,
            Event.call (getCall rc.rc "Fields") (Reply.ok unknown), Event.clear unknown])
        rcases hres : nextFetch env rc (env.toIDispatch unknown) dest
          (tr ++ [Event.call (getCall rc.rc "EOF") (Reply.ok eof), Event.clear eof,
            Event.call (getCall rc.rc "Fields") (Reply.ok unknown), Event.clear unknown])
          with ⟨o, dd, t⟩
        rw [hres] at hf
        simp only at hf
        cases hfld : env.toIDispatch unknown with
        | none =>
          simp only
          refine ⟨by simp [hz], ?_⟩
          obtain ⟨evs, hevs, _, _⟩ := hf
          simp only at hevs
          rw [hevs]
          have hc := conclude _ _ (surfaced_nil_release env tr
            ([Event.call (getCall rc.rc "EOF") (Reply.ok eof), Event.clear eof,
              Event.call (getCall rc.rc "Fields") (Reply.ok unknown), Event.clear unknown] ++ evs)
            ⟨getCall rc.rc "Fields", unknown, by simp, Or.inl rfl, hfld⟩)
          simpa only [List.append_assoc, List.cons_append, List.nil_append,
            List.singleton_append, List.append_nil, ne_eq] using hc
        | some p =>
          simp only
          have hs := surfaced_suffix env tr [Event.release (some p)]
            (by intro c e h; simp at h) _ _ (surfaced_skip env tr _ hq _ hf)
          refine ⟨?_, conclude _ _ hs⟩
          constructor
          · intro ho
            exact absurd ho hs.choose_spec.2.2
          · intro hx
            simp [hz] at hx
    · simp only [ne_eq, hz, not_false_eq_true, if_true]
      refine ⟨by simp [hz], [Event.call (getCall rc.rc "EOF") (Reply.ok eof), Event.clear eof],
        by simp, ?_⟩
      intro c e hm _
      simp at hm

theorem Next_failures_surfaced_witness :
    (AdodbRows.Next envValueFail rowsFresh rowDest []).1 =
      Outcome.err (GoError.ole ⟨-2146825267⟩) := by
  obtain ⟨evs, htr, hall⟩ := (Next_failures_surfaced envValueFail rowsFresh rowDest []).2
  have hevs : evs = (AdodbRows.Next envValueFail rowsFresh rowDest []).2.2 := by
    rw [htr, List.nil_append]
  have hm : Event.call (getCall (some 10) "Value") (Reply.fail ⟨-2146825267⟩) ∈ evs := by
    rw [hevs]
    decide
  refine (hall (getCall (some 10) "Value") ⟨-2146825267⟩ hm (by decide)).2 ?_
  rintro ⟨c, v, _, _, hnil⟩
  simp [envValueFail] at hnil


end Adodb
